import Mathlib

/-!
Verification of the Slidev export pipeline (MP4 recorder, PDF TOC outline,
and the video export-job HTTP service).

The definitions below are shallow embeddings of the TypeScript sources:
  - packages/slidev/node/commands/export.ts (capture driver / MP4 recorder)
  - the Vite export-api plugin (video export-job service)
  - the in-page step-bridge type declarations

JavaScript numbers are modelled as `ℚ` (all values arising here are exact
decimals; NaN is modelled by `Option`), machine time (`Date.now()`) as `ℚ`
milliseconds threaded through an explicit state, and fallible operations as
`Except String`.  Browser/encoder nondeterminism (screenshot timings, page
step info, ffmpeg exit code) is supplied by an explicit environment record.
-/

set_option maxHeartbeats 1000000
set_option maxRecDepth 2000

/-! ## Filename-component sanitizer (export-api plugin, `sanitizePart`)

`sanitizePart` is
`value.trim()`, then replace of `[^\w.-]+` with `'-'`, then replace of `-+`
with `'-'`, then replace of `^-|-$` with `''`.
`String.prototype.trim` is modelled by Lean's `String.trim`; `\w` (no `u`
flag) is ASCII `[A-Za-z0-9_]`. -/

/-- ASCII word character, JavaScript regex class `\w` without the `u` flag. -/
def isWordChar (c : Char) : Bool :=
  ('a' ≤ c && c ≤ 'z') || ('A' ≤ c && c ≤ 'Z') || ('0' ≤ c && c ≤ '9') || c = '_'

/-- Character class `[\w.-]`: the characters `.replace(/[^\w.-]+/g, '-')` keeps. -/
def isKeptChar (c : Char) : Bool :=
  isWordChar c || c = '.' || c = '-'

/-- Model of `.replace(/[^\w.-]+/g, '-')`: each maximal run of characters
outside `[\w.-]` becomes a single `'-'`. -/
def replaceNonWordRuns : List Char → List Char
  | [] => []
  | c :: rest =>
    if isKeptChar c then c :: replaceNonWordRuns rest
    else '-' :: replaceNonWordRuns (rest.dropWhile (fun d => !isKeptChar d))
termination_by l => l.length
decreasing_by
  all_goals
    simp only [List.length_cons]
    first
      | omega
      | exact Nat.lt_succ_of_le (List.dropWhile_sublist _).length_le

/-- Model of the global replace of `-+` with `'-'`: each maximal run of `'-'`
becomes a single `'-'`. -/
def collapseDashRuns : List Char → List Char
  | [] => []
  | c :: rest =>
    if c = '-' then '-' :: collapseDashRuns (rest.dropWhile (fun d => d = '-'))
    else c :: collapseDashRuns rest
termination_by l => l.length
decreasing_by
  all_goals
    simp only [List.length_cons]
    first
      | omega
      | exact Nat.lt_succ_of_le (List.dropWhile_sublist _).length_le

/-- Model of `.replace(/^-|-$/g, '')`: the global regex removes one leading
`'-'` (anchor `^-` can only match at position 0) and one trailing `'-'`. -/
def stripEdgeDashes (l : List Char) : List Char :=
  let l1 := if l.head? = some '-' then l.tail else l
  if l1.getLast? = some '-' then l1.dropLast else l1

/-- `sanitizePart` from the export-api plugin. -/
def sanitizePart (value : String) : String :=
  String.mk (stripEdgeDashes (collapseDashRuns (replaceNonWordRuns value.trim.data)))

/-- Two adjacent characters are never both `'-'`. -/
def NoDoubleDash (l : List Char) : Prop :=
  List.Chain' (fun a b => ¬(a = '-' ∧ b = '-')) l

/-! ## Transition settle budget (`getTransitionSettleBudget` / `parseMs`)

The in-page evaluation reads the (already `.trim()`-ed) CSS custom property
`--slidev-transition-duration` and computes
`Math.max(120, Math.min(3000, parseMs(raw) + 300))`. -/

/-- Numeric value of a list of decimal digit characters. -/
def digitsVal (l : List Char) : Nat :=
  l.foldl (fun a c => a * 10 + (c.toNat - '0'.toNat)) 0

/-- Model of JavaScript `Number.parseFloat`: skip leading whitespace, optional
sign, decimal mantissa with optional fraction, optional well-formed decimal
exponent; trailing garbage is ignored; `none` models `NaN` (no digits found).
(The special literal `Infinity` is not modelled; it cannot be represented in
`ℚ` and never arises from CSS duration values.) -/
def jsParseFloat (s : String) : Option ℚ :=
  let l := s.data.dropWhile Char.isWhitespace
  let sign : ℚ := match l with
    | '-' :: _ => -1
    | _ => 1
  let l := match l with
    | '-' :: r => r
    | '+' :: r => r
    | other => other
  let intDigits := l.takeWhile Char.isDigit
  let l1 := l.dropWhile Char.isDigit
  let fracDigits := match l1 with
    | '.' :: r => r.takeWhile Char.isDigit
    | _ => []
  let l2 := match l1 with
    | '.' :: r => r.dropWhile Char.isDigit
    | other => other
  if intDigits.isEmpty && fracDigits.isEmpty then none
  else
    let mant : ℚ := (digitsVal intDigits : ℚ) + (digitsVal fracDigits : ℚ) / ((10 : ℚ) ^ fracDigits.length)
    let expVal : ℤ := match l2 with
      | c :: r =>
        if c = 'e' || c = 'E' then
          match r with
          | '-' :: d => if (d.takeWhile Char.isDigit).isEmpty then 0
                        else -(digitsVal (d.takeWhile Char.isDigit) : ℤ)
          | '+' :: d => if (d.takeWhile Char.isDigit).isEmpty then 0
                        else (digitsVal (d.takeWhile Char.isDigit) : ℤ)
          | d => if (d.takeWhile Char.isDigit).isEmpty then 0
                 else (digitsVal (d.takeWhile Char.isDigit) : ℤ)
        else 0
      | [] => 0
    some (sign * mant * (10 : ℚ) ^ expVal)

/-- JavaScript `x || 0` applied to a `parseFloat` result: `NaN` (and `0`
itself) collapse to `0`. -/
def orZero (x : Option ℚ) : ℚ :=
  match x with
  | some v => v
  | none => 0

/-- The in-page `parseMs` helper of `getTransitionSettleBudget`:
empty string is `0`; an `ms` suffix is milliseconds; an `s` suffix is seconds
(times 1000); otherwise the value is taken as unitless milliseconds; an
unparsable number collapses to `0`. -/
def parseMsValue (value : String) : ℚ :=
  if value = "" then 0
  else if value.endsWith "ms" then orZero (jsParseFloat (value.dropRight 2))
  else if value.endsWith "s" then orZero (jsParseFloat (value.dropRight 1)) * 1000
  else orZero (jsParseFloat value)

/-- `getTransitionSettleBudget` as a function of the trimmed
`--slidev-transition-duration` property value:
`Math.max(120, Math.min(3000, parseMs(raw) + 300))`. -/
def getTransitionSettleBudgetOf (raw : String) : ℚ :=
  max 120 (min 3000 (parseMsValue raw + 300))

/-- Modelled from the spec: `clamp(x, lo, hi)` as used in the sentence
"sleeps `clamp(duration + 300ms, 120ms, 3000ms)`". -/
def clampSpec (x lo hi : ℚ) : ℚ :=
  max lo (min hi x)

/-- Modelled from the spec: the transition duration as the spec describes the
parse — `ms` suffix, `s` suffix multiplied by 1000, unitless values, and an
empty or unparsable value treated as 0. -/
def specTransitionDuration (raw : String) : ℚ :=
  if raw = "" then 0
  else if raw.endsWith "ms" then (jsParseFloat (raw.dropRight 2)).getD 0
  else if raw.endsWith "s" then ((jsParseFloat (raw.dropRight 1)).getD 0) * 1000
  else (jsParseFloat raw).getD 0

/-! ## PDF TOC outline (`addToTree` / `makeOutline`)

`addTocToPdf` filters the deck to the titled slides, folds them through
`addToTree` starting from the empty tree, and renders the tree with
`makeOutline`.  `slideIndexes` (built by `getSlidesIndex` from the printed
page) is kept abstract as a function from 1-based slide number to page
number. -/

/-- The fields of a `SlideInfo` that the TOC construction reads:
`index` (0-based), `title` (`none`/empty string are falsy), `level`
(`titleLevel`; `none` and `0` are falsy), and the truthiness of
`frontmatter?.hideInToc`. -/
structure SlideInfo where
  index : Nat
  title : Option String
  level : Option Nat
  hideInToc : Bool

/-- JavaScript truthiness of `slide.title`. -/
def SlideInfo.hasTitle (s : SlideInfo) : Bool :=
  match s.title with
  | some t => t ≠ ""
  | none => false

/-- A TOC tree node (`TocItem`). -/
inductive TocItem where
  | node (no : Nat) (children : List TocItem) (level : Nat) (titleLevel : Nat)
      (path : String) (hideInToc : Bool) (title : String)

/-- The `children` field of a `TocItem`. -/
def TocItem.children : TocItem → List TocItem
  | .node _ c _ _ _ _ _ => c

/-- The `level` field of a `TocItem` (depth in the tree, assigned by
`addToTree`). -/
def TocItem.level : TocItem → Nat
  | .node _ _ l _ _ _ _ => l

/-- The `titleLevel` field of a `TocItem`. -/
def TocItem.titleLevel : TocItem → Nat
  | .node _ _ _ tl _ _ _ => tl

/-- The `title` field of a `TocItem`. -/
def TocItem.title : TocItem → String
  | .node _ _ _ _ _ _ t => t

/-- The `path` field of a `TocItem`. -/
def TocItem.path : TocItem → String
  | .node _ _ _ _ p _ _ => p

/-- Replace the `children` field of a `TocItem`. -/
def TocItem.setChildren : TocItem → List TocItem → TocItem
  | .node no _ l tl p h t, c => .node no c l tl p h t

/-- The recursion of `addToTree(tree, info, slideIndexes, level)` for a slide
whose `titleLevel` is present: `info.level` is fixed across the recursive
descent, so it is lifted out as the parameter `titleLevel`.  If `titleLevel`
is truthy, deeper than the current `level`, and deeper than the last
sibling's `titleLevel`, descend into the last sibling's children; otherwise
push a fresh node at this level. -/
def addToTreeGo (slideIndexes : Nat → Nat) (info : SlideInfo) (titleLevel : Nat) :
    List TocItem → Nat → List TocItem :=
  fun tree level =>
    let newItem := TocItem.node info.index [] level titleLevel
      (toString (slideIndexes (info.index + 1))) info.hideInToc (info.title.getD "")
    match tree.getLast? with
    | some last =>
      if hcond : titleLevel ≠ 0 ∧ level < titleLevel ∧ last.titleLevel < titleLevel then
        tree.dropLast ++
          [last.setChildren (addToTreeGo slideIndexes info titleLevel last.children (level + 1))]
      else
        tree ++ [newItem]
    | none => tree ++ [newItem]
termination_by tree level => titleLevel - level
decreasing_by
  omega

/-- `addToTree(tree, info, slideIndexes, level)`: a slide without a
`titleLevel` is pushed at the current level (`titleLevel ?? level`); one with
a `titleLevel` goes through the descent recursion. -/
def addToTree (slideIndexes : Nat → Nat) (info : SlideInfo)
    (tree : List TocItem) (level : Nat) : List TocItem :=
  match info.level with
  | some titleLevel => addToTreeGo slideIndexes info titleLevel tree level
  | none =>
    tree ++ [TocItem.node info.index [] level level
      (toString (slideIndexes (info.index + 1))) info.hideInToc (info.title.getD "")]

/-- String of `n` dashes, `'-'.repeat(n)`. -/
def dashes (n : Nat) : String :=
  String.mk (List.replicate n '-')

/-- JavaScript-truthiness filter applied by
`.filter(outline => !!outline)`: drops `null` entries and empty strings. -/
def truthyStrings (l : List (Option String)) : List String :=
  l.filterMap fun o =>
    match o with
    | some s => if s = "" then none else some s
    | none => none

mutual

/-- `makeOutline(tree)`: map every node to its outline entry, drop falsy
entries, join with newlines. -/
def makeOutline (tree : List TocItem) : String :=
  String.intercalate "\n" (truthyStrings (outlineEntries tree))

/-- The `tree.map(...)` part of `makeOutline`, elaborated as explicit
recursion over the list. -/
def outlineEntries : List TocItem → List (Option String)
  | [] => []
  | item :: rest => tocEntry item :: outlineEntries rest

/-- The mapped entry for one node: `rootOutline` is
`title ? path|dashes|title : null`; if the children render to a non-empty
outline the entry is `rootOutline + newline + childrenOutline` (string
interpolation renders a `null` root as the text `"null"`). -/
def tocEntry (item : TocItem) : Option String :=
  match item with
  | .node _ children level _ path _ title =>
    let rootOutline : Option String :=
      if title ≠ "" then some (path ++ "|" ++ dashes (level - 1) ++ "|" ++ title) else none
    let childrenOutline := makeOutline children
    if childrenOutline.length > 0 then
      some ((match rootOutline with
              | some s => s
              | none => "null") ++ "\n" ++ childrenOutline)
    else rootOutline

end

/-- The TOC tree built by `addTocToPdf`:
`slides.filter(slide => slide.title).reduce((acc, s) => addToTree(acc, s, slideIndexes), [])`
with the default `level = 1`. -/
def buildTocTree (slideIndexes : Nat → Nat) (slides : List SlideInfo) : List TocItem :=
  (slides.filter SlideInfo.hasTitle).foldl
    (fun acc s => addToTree slideIndexes s acc 1) []

mutual

/-- Number of nodes in a TOC forest. -/
def tocSize : List TocItem → Nat
  | [] => 0
  | item :: rest => tocItemSize item + tocSize rest

/-- Number of nodes in a TOC tree. -/
def tocItemSize : TocItem → Nat
  | .node _ children _ _ _ _ _ => 1 + tocSize children

end

mutual

/-- The outline lines of a forest, one per node, in preorder: each node
contributes `path|dashes(level-1)|title`. -/
def preorderLines : List TocItem → List String
  | [] => []
  | item :: rest => itemLines item ++ preorderLines rest

/-- The outline lines of one tree in preorder. -/
def itemLines : TocItem → List String
  | .node _ children level _ path _ title =>
    (path ++ "|" ++ dashes (level - 1) ++ "|" ++ title) :: preorderLines children

end

/-- The outline text one tree contributes: its preorder lines joined by
newlines. -/
def itemChunk (item : TocItem) : String :=
  String.intercalate "\n" (itemLines item)

/-- The per-tree outline chunks of a forest. -/
def forestChunks (l : List TocItem) : List String :=
  l.map itemChunk

mutual

/-- Every node of the forest has a non-empty title. -/
def allTitled : List TocItem → Bool
  | [] => true
  | item :: rest => itemTitled item && allTitled rest

/-- Every node of the tree has a non-empty title. -/
def itemTitled : TocItem → Bool
  | .node _ children _ _ _ _ title => title ≠ "" && allTitled children

end

mutual

/-- Every node at depth `d` (root depth `d₀`) stores `level = d`: the `level`
field recorded by `addToTree` is the node's depth in the tree. -/
def depthsOk : List TocItem → Nat → Bool
  | [], _ => true
  | item :: rest, d => itemDepthOk item d && depthsOk rest d

/-- Depth consistency of one tree. -/
def itemDepthOk : TocItem → Nat → Bool
  | .node _ children level _ _ _ _, d => level == d && depthsOk children (d + 1)

end

/-! ## MP4 export preconditions (`genPageMp4` prelude, `waitForFfmpeg`)

The prelude of `genPageMp4` before any capture: the `withClicks`, fps,
interval, motion-scale and contiguity validations, then the ffmpeg probe
(`waitForFfmpeg`), the navigation (`goPlay`) and the encoder spawn.  The
probe result, the navigation result and the later capture work are supplied
by the environment. -/

/-- Model of `parseVideoSize`: `undefined`/empty is no size; otherwise the
value must match `^(\d+)x(\d+)$` (case-insensitive `x`) with positive
components. -/
def matchVideoSize (v : String) : Option (Nat × Nat) :=
  let l := v.data
  let ds1 := l.takeWhile Char.isDigit
  match l.dropWhile Char.isDigit with
  | c :: r =>
    if (c = 'x' || c = 'X') && !ds1.isEmpty then
      let ds2 := r.takeWhile Char.isDigit
      if !ds2.isEmpty && (r.dropWhile Char.isDigit).isEmpty then
        some (digitsVal ds1, digitsVal ds2)
      else none
    else none
  | [] => none

/-- `parseVideoSize` from export.ts.  A digit string always satisfies
`Number.isInteger`, so only the positivity check of the source can fail once
the shape matched. -/
def parseVideoSize (value : Option String) : Except String (Option (Nat × Nat)) :=
  match value with
  | none => .ok none
  | some v =>
    if v = "" then .ok none
    else
      match matchVideoSize v with
      | none => .error ("[slidev] Invalid --video-size \"" ++ v
          ++ "\". Expected \"<width>x<height>\", for example \"1920x1080\"")
      | some (width, height) =>
        if width = 0 ∨ height = 0 then
          .error ("[slidev] Invalid --video-size \"" ++ v
            ++ "\". Width and height should be positive integers.")
        else .ok (some (width, height))

/-- `parseVideoMotionScale` from export.ts, on the number branch (a `ℚ` is
always finite, so only positivity can fail). -/
def parseVideoMotionScale (value : Option ℚ) : Except String ℚ :=
  match value with
  | none => .ok 1
  | some scale =>
    if scale ≤ 0 then
      .error ("[slidev] Invalid --video-motion-scale \"" ++ toString scale
        ++ "\". Expected a number greater than 0.")
    else .ok scale

/-- `isContiguousRange`:
`pages.every((value, index) => index === 0 || value === pages[index - 1] + 1)`. -/
def isContiguousRange (pages : List Nat) : Bool :=
  (List.range pages.length).all fun index =>
    index == 0 || pages.getD index 0 == pages.getD (index - 1) 0 + 1

/-- External effects of the MP4 setup phase, in program order. -/
inductive EncoderEv where
  | probe
  | navigate
  | spawnEncoder
deriving DecidableEq

/-- MP4-relevant parameters of `exportSlides` after defaulting. -/
structure Mp4Options where
  withClicks : Bool
  videoFps : ℚ
  videoInterval : ℚ
  videoMotionScale : ℚ
  output : String
deriving DecidableEq

/-- The values computed by a successful `genPageMp4` prelude. -/
structure Mp4StartOk where
  output : String
  motionScale : ℚ
  playbackSpeedup : ℚ
  startSlideNo : Nat
  endSlideNo : Nat
deriving DecidableEq

/-- The `genPageMp4` prelude: validations in source order, then the ffmpeg
probe, the `goPlay` navigation, and the encoder spawn.  The second component
lists which external effects were reached.  (The navigation-failure message
stands in for a playwright error.) -/
def mp4Start (opts : Mp4Options) (pages : List Nat) (ffmpegOk goPlayOk : Bool) :
    Except String Mp4StartOk × List EncoderEv :=
  if opts.withClicks = false then
    (.error "[slidev] MP4 export always includes clicks. Remove --with-clicks=false to continue.", [])
  else if ¬opts.videoFps.den = 1 ∨ opts.videoFps < 1 ∨ opts.videoFps > 60 then
    (.error ("[slidev] Invalid video fps \"" ++ toString opts.videoFps
      ++ "\". Expected an integer between 1 and 60."), [])
  else if ¬opts.videoInterval.den = 1 ∨ opts.videoInterval < 0 then
    (.error ("[slidev] Invalid video interval \"" ++ toString opts.videoInterval
      ++ "\". Expected a non-negative integer."), [])
  else
    let output := if opts.output.endsWith ".mp4" then opts.output else opts.output ++ ".mp4"
    match parseVideoMotionScale (some opts.videoMotionScale) with
    | .error e => (.error e, [])
    | .ok motionScale =>
      let playbackSpeedup := if motionScale > 1 then motionScale else 1
      let startSlideNo := pages.headD 1
      let endSlideNo := pages.getLastD startSlideNo
      if isContiguousRange pages = false then
        (.error "[slidev] MP4 export currently requires a contiguous --range (for example: \"1-5\").", [])
      else if ffmpegOk = false then
        (.error "[slidev] MP4 export requires ffmpeg. Please install ffmpeg and try again.", [.probe])
      else if goPlayOk = false then
        (.error "[slidev] page.goto failed during goPlay", [.probe, .navigate])
      else
        (.ok { output := output, motionScale := motionScale,
               playbackSpeedup := playbackSpeedup,
               startSlideNo := startSlideNo, endSlideNo := endSlideNo },
         [.probe, .navigate, .spawnEncoder])

/-! ## Video export-job service (export-api plugin) -/

/-- Job lifecycle states. -/
inductive JobStatus where
  | running
  | done
  | error
deriving DecidableEq

/-- A `VideoExportJob` registry record. -/
structure VideoExportJob where
  status : JobStatus
  file : Option String
  error : Option String
  startedAt : ℤ
  completedAt : Option ℤ
  durationMs : Option ℤ
deriving DecidableEq

/-- The in-memory `Map` of jobs: insertion-ordered association list. -/
abbrev JobMap := List (String × VideoExportJob)

/-- `Map.get`. -/
def lookupJob (m : JobMap) (id : String) : Option VideoExportJob :=
  (m.find? fun p => p.1 = id).map Prod.snd

/-- `Map.set`: overwrite in place if the key exists, else append. -/
def setJob (m : JobMap) (id : String) (job : VideoExportJob) : JobMap :=
  if m.any fun p => p.1 = id then
    m.map fun p => if p.1 = id then (id, job) else p
  else m ++ [(id, job)]

/-- `VIDEO_EXPORT_JOB_TTL_MS = 10 * 60 * 1000`. -/
def VIDEO_EXPORT_JOB_TTL_MS : ℤ := 10 * 60 * 1000

/-- `cleanupJobs`: lazily sweep non-running jobs whose
`completedAt ?? startedAt` is older than the TTL. -/
def cleanupJobs (now : ℤ) (m : JobMap) : JobMap :=
  m.filter fun p =>
    p.2.status == JobStatus.running
      || !(decide (now - (p.2.completedAt.getD p.2.startedAt) > VIDEO_EXPORT_JOB_TTL_MS))

/-- Model of node's `path.basename`: the last `/`-separated component. -/
def basenameOf (p : String) : String :=
  (p.splitOn "/").getLastD p

/-- JavaScript truthiness of the `file` field. -/
def truthyFile : Option String → Bool
  | some f => f ≠ ""
  | none => false

/-- The JSON job descriptor built by `resolveJobResponse`. -/
structure JobResponse where
  jobId : Option String
  status : JobStatus
  file : Option String
  error : Option String
  startedAt : ℤ
  completedAt : Option ℤ
  durationMs : ℤ
  filename : Option String
  downloadUrl : Option String
deriving DecidableEq

/-- `resolveJobResponse(job, jobId?)`: running jobs report a live
`durationMs`; `downloadUrl` is set exactly when a truthy `jobId` was passed
and the status is `done`. -/
def resolveJobResponse (job : VideoExportJob) (jobId : Option String) (now : ℤ) : JobResponse :=
  let resolvedDurationMs : ℤ :=
    if job.status = JobStatus.running then max 0 (now - job.startedAt)
    else job.durationMs.getD (max 0 ((job.completedAt.getD now) - job.startedAt))
  { jobId := jobId,
    status := job.status,
    file := job.file,
    error := job.error,
    startedAt := job.startedAt,
    completedAt := job.completedAt,
    durationMs := resolvedDurationMs,
    filename := job.file.map basenameOf,
    downloadUrl :=
      match jobId with
      | some jid =>
        if jid ≠ "" ∧ job.status = JobStatus.done then
          some ("/__slidev/export/video/" ++ jid ++ "/download")
        else none
      | none => none }

/-- Result of `GET /export/video/<id>/download`. -/
inductive DownloadResult where
  | notFound (error : String)
  | stream (file : String) (contentType : String) (contentDisposition : String)
deriving DecidableEq

/-- The download handler: 404 when the job is missing, not `done`, or has a
falsy `file`; otherwise stream the file as an mp4 attachment. -/
def handleDownload (m : JobMap) (jobId : String) : DownloadResult :=
  match lookupJob m jobId with
  | none => .notFound "Export file not ready"
  | some job =>
    match job.file with
    | some f =>
      if job.status = JobStatus.done ∧ f ≠ "" then
        .stream f "video/mp4" ("attachment; filename=\"" ++ basenameOf f ++ "\"")
      else .notFound "Export file not ready"
    | none => .notFound "Export file not ready"

/-- Result of `GET /export/video/<id>`. -/
inductive StatusResult where
  | notFound (error : String)
  | okJson (resp : JobResponse)
deriving DecidableEq

/-- The status handler: 404 for an unknown id, else the job descriptor. -/
def handleGetStatus (m : JobMap) (jobId : String) (now : ℤ) : StatusResult :=
  match lookupJob m jobId with
  | none => .notFound "Export job not found"
  | some job => .okJson (resolveJobResponse job (some jobId) now)

/-- The JSON body accepted by `POST /export/video` (absent fields are the
non-number / non-string / non-boolean cases of the source's guards). -/
structure PostPayload where
  videoInterval : Option ℚ
  videoFps : Option ℚ
  videoSize : Option String
  range : Option String
  dark : Option Bool

/-- The `ExportArgs` assembled by the POST handler for the background task. -/
structure ExportArgsModel where
  entry : String
  format : String
  output : String
  range : Option String
  videoInterval : Option ℚ
  videoFps : Option ℚ
  videoSize : Option String
  dark : Option Bool

/-- `getDefaultOutputBase`:
`sanitizePart(config.exportFilename || basename(entry,'.md') + '-export') || 'slidev-export'`. -/
def getDefaultOutputBase (exportFilename : Option String) (entryBasename : String) : String :=
  let base := match exportFilename with
    | some s => if s ≠ "" then s else entryBasename ++ "-export"
    | none => entryBasename ++ "-export"
  let sp := sanitizePart base
  if sp ≠ "" then sp else "slidev-export"

/-- JavaScript `Math.round`: half away from zero upward, `⌊q + 1/2⌋`. -/
def jsRound (q : ℚ) : ℤ := ⌊q + 1/2⌋

/-- `String(n).padStart(2, '0')`. -/
def pad2 (n : Nat) : String :=
  let s := toString n
  if s.length < 2 then String.mk (List.replicate (2 - s.length) '0') ++ s else s

/-- The components returned by the JS `Date` accessors (`monthIndex` is the
0-based `getMonth()`). -/
structure DateParts where
  year : Nat
  monthIndex : Nat
  day : Nat
  hour : Nat
  minute : Nat
  second : Nat

/-- `formatTimestamp`: `YYYYMMDD-hhmmss`. -/
def formatTimestamp (d : DateParts) : String :=
  toString d.year ++ pad2 (d.monthIndex + 1) ++ pad2 d.day ++ "-"
    ++ pad2 d.hour ++ pad2 d.minute ++ pad2 d.second

/-- `buildOutputFilename(payload, jobId)`:
`<base>-<range>-<fps>fps-<size>-<timestamp>-<jobId8>.mp4` with sanitized,
defaulted components. -/
def buildOutputFilename (payload : PostPayload) (jobId : String)
    (outputBase timestamp : String) : String :=
  let rangePart := sanitizePart (match payload.range with
    | some r => if r.trim ≠ "" then r.trim else "all"
    | none => "all")
  let fpsPart := match payload.videoFps with
    | some f => toString (jsRound f) ++ "fps"
    | none => "30fps"
  let sizeRaw := match payload.videoSize with
    | some s => if s ≠ "" then s else "1920x1080"
    | none => "1920x1080"
  let sizePart := if sanitizePart sizeRaw ≠ "" then sanitizePart sizeRaw else "1920x1080"
  outputBase ++ "-" ++ rangePart ++ "-" ++ fpsPart ++ "-" ++ sizePart ++ "-"
    ++ timestamp ++ "-" ++ jobId.take 8 ++ ".mp4"

/-- The background task captured by the POST handler before it returns. -/
structure PendingJob where
  id : String
  output : String
  startedAt : ℤ
  args : ExportArgsModel

/-- HTTP outcome of `POST /export/video`. -/
inductive PostResult where
  | ok (jobId : String)
  | badRequest (error : String)
deriving DecidableEq

/-- The synchronous part of the POST handler: body-parse failures
(`getBodyJson` throwing) and a missing server port answer 400 without
touching the registry; otherwise a fresh job is registered as `running`, the
background task is scheduled, and 200 `{jobId}` is returned.  `resolve` of
node:path is modelled by `/`-concatenation onto the absolute `userRoot`. -/
def handlePost (body : Except String PostPayload) (port : Option Nat)
    (newId : String) (now : ℤ) (date : DateParts)
    (exportFilename : Option String) (entryBasename userRoot entry : String)
    (m : JobMap) : PostResult × JobMap × Option PendingJob :=
  match body with
  | .error e => (.badRequest e, m, none)
  | .ok payload =>
    match port with
    | none => (.badRequest "Unable to resolve dev server port for exporting", m, none)
    | some _ =>
      let filename := buildOutputFilename payload newId
        (getDefaultOutputBase exportFilename entryBasename) (formatTimestamp date)
      let output := userRoot ++ "/" ++ filename
      let m1 := setJob m newId
        { status := .running, file := some output, error := none,
          startedAt := now, completedAt := none, durationMs := none }
      let args : ExportArgsModel :=
        { entry := entry, format := "mp4", output := output,
          range := match payload.range with
            | some r => if r.trim ≠ "" then some r.trim else none
            | none => none,
          videoInterval := payload.videoInterval,
          videoFps := payload.videoFps,
          videoSize := payload.videoSize,
          dark := payload.dark }
      (.ok newId, m1, some { id := newId, output := output, startedAt := now, args := args })

/-- External collaborators of the background video pipeline: the range
parser (out-of-scope `parseRangeString`), the ffmpeg probe, the `goPlay`
navigation, and the capture/encode work after a successful setup. -/
structure VideoPipelineEnv where
  parsedRange : Except String (List Nat)
  ffmpegOk : Bool
  goPlayOk : Bool
  captureResult : Except String Unit

/-- The background pipeline as run by the POST handler's async task:
`getExportOptions` (whose `parseVideoSize` may throw) followed by
`exportSlides` with `format: 'mp4'` (range expansion, then the `genPageMp4`
prelude, then the capture).  `withClicks` defaults to `true` for mp4 and the
HTTP payload carries no motion scale, so `videoMotionScale = 1`. -/
def exportVideoJob (args : ExportArgsModel) (env : VideoPipelineEnv) : Except String Unit :=
  match parseVideoSize args.videoSize with
  | .error e => .error e
  | .ok _ =>
    let opts : Mp4Options :=
      { withClicks := true,
        videoFps := args.videoFps.getD 30,
        videoInterval := args.videoInterval.getD 2000,
        videoMotionScale := 1,
        output := args.output }
    match env.parsedRange with
    | .error e => .error e
    | .ok pages =>
      match (mp4Start opts pages env.ffmpegOk env.goPlayOk).1 with
      | .error e => .error e
      | .ok _ => env.captureResult

/-- The completion callback of the background task: success pins `done`,
failure pins `error`; both re-assert `file` and pin `durationMs`. -/
def runBackgroundJob (pending : PendingJob) (pipelineResult : Except String Unit)
    (completedAt : ℤ) (m : JobMap) : JobMap :=
  match pipelineResult with
  | .ok _ => setJob m pending.id
      { status := .done, file := some pending.output, error := none,
        startedAt := pending.startedAt, completedAt := some completedAt,
        durationMs := some (max 0 (completedAt - pending.startedAt)) }
  | .error e => setJob m pending.id
      { status := .error, error := some e, file := some pending.output,
        startedAt := pending.startedAt, completedAt := some completedAt,
        durationMs := some (max 0 (completedAt - pending.startedAt)) }

/-- Registry states reachable through the service's own operations.  The
`background` step requires a non-empty output path, as produced by
`handlePost` (`path.resolve` returns a non-empty absolute path). -/
inductive ReachableJobs : JobMap → Prop where
  | init : ReachableJobs []
  | post (m : JobMap) (body : Except String PostPayload) (port : Option Nat)
      (newId : String) (now : ℤ) (date : DateParts) (exportFilename : Option String)
      (entryBasename userRoot entry : String) (h : ReachableJobs m) :
      ReachableJobs (handlePost body port newId now date exportFilename entryBasename userRoot entry m).2.1
  | background (m : JobMap) (pending : PendingJob) (res : Except String Unit) (t : ℤ)
      (hout : pending.output ≠ "") (h : ReachableJobs m) :
      ReachableJobs (runBackgroundJob pending res t m)
  | sweep (m : JobMap) (now : ℤ) (h : ReachableJobs m) : ReachableJobs (cleanupJobs now m)

/-! ## In-page step bridge (`getStepInfo` evaluation)

Models the body of the `page.evaluate` in `getStepInfo`: the preferred
`window.__slidev_export__.getStepInfo()` bridge, with a fallback that
normalizes the legacy `window.__slidev__.nav` object whose fields may be
plain values or reactive cells `{ value }`. -/

/-- The in-page playback state (`Mp4StepInfo` / `SlidevExportStepInfo`). -/
structure Mp4StepInfo where
  no : Nat
  clicks : Nat
  clicksTotal : Nat
  hasNext : Bool
deriving DecidableEq

/-- A legacy nav field: a plain value or a reactive cell whose `.value` may
itself be undefined. -/
inductive MaybeRefVal (α : Type) where
  | plain (v : α)
  | cell (v : Option α)

/-- The legacy `window.__slidev__.nav` shape (`SlidevContextNav`); a missing
field is `none`.  `next` records whether `nav.next` is a function. -/
structure SlidevContextNav where
  currentSlideNo : Option (MaybeRefVal Nat)
  clicks : Option (MaybeRefVal Nat)
  clicksTotal : Option (MaybeRefVal Nat)
  hasNext : Option (MaybeRefVal Bool)
  next : Bool

/-- `window.__slidev__` (`SlidevContext`). -/
structure SlidevContext where
  nav : Option SlidevContextNav

/-- `window.__slidev_export__` (`SlidevExportBridge`): `getStepInfo` is
`some info` when the property is a function (returning `info`), and
`nextStep` records whether that property is a function. -/
structure SlidevExportBridge where
  getStepInfo : Option Mp4StepInfo
  nextStep : Bool

/-- The page globals the bridge reads. -/
structure PageWorld where
  slidevExport : Option SlidevExportBridge
  slidev : Option SlidevContext

/-- Numeric normalization of a legacy nav field:
`Number(x.value ?? 0)` for a cell, `Number(x ?? 0)` otherwise. -/
def readNumField : Option (MaybeRefVal Nat) → Nat
  | some (.cell v) => v.getD 0
  | some (.plain v) => v
  | none => 0

/-- Boolean normalization of the legacy `hasNext` field:
`Boolean(x.value)` for a cell, `Boolean(x)` otherwise. -/
def readBoolField : Option (MaybeRefVal Bool) → Bool
  | some (.cell v) => v.getD false
  | some (.plain v) => v
  | none => false

/-- The fall-through branch of `getStepInfo` over `window.__slidev__?.nav`. -/
def navFallbackStepInfo (w : PageWorld) : Mp4StepInfo :=
  let nav := w.slidev.bind SlidevContext.nav
  { no := readNumField (nav.bind SlidevContextNav.currentSlideNo),
    clicks := readNumField (nav.bind SlidevContextNav.clicks),
    clicksTotal := readNumField (nav.bind SlidevContextNav.clicksTotal),
    hasNext := readBoolField (nav.bind SlidevContextNav.hasNext) }

/-- The `page.evaluate` body of `getStepInfo`. -/
def pageGetStepInfo (w : PageWorld) : Mp4StepInfo :=
  match w.slidevExport with
  | some bridge =>
    match bridge.getStepInfo with
    | some info => info
    | none => navFallbackStepInfo w
  | none => navFallbackStepInfo w

/-- The `page.evaluate` body of `nextStep`: `true` iff one of the advance
functions exists. -/
def pageNextStep (w : PageWorld) : Bool :=
  match w.slidevExport with
  | some bridge =>
    if bridge.nextStep then true
    else
      match w.slidev.bind SlidevContext.nav with
      | some nav => nav.next
      | none => false
  | none =>
    match w.slidev.bind SlidevContext.nav with
    | some nav => nav.next
    | none => false

/-- `getStepKey(step)` is the string `no-clicks`. -/
def getStepKey (step : Mp4StepInfo) : String :=
  toString step.no ++ "-" ++ toString step.clicks

/-! ## MP4 recorder (`genPageMp4` capture phase)

The capture phase after the encoder spawn is modelled as a deterministic
machine over a state `RecState` (clock, frame counters, event trace) driven
by an environment `RecEnv` (per-operation timings, the step info the page
reports at each read, the result of each `nextStep`, and the encoder's exit
code).  Page evaluations are instantaneous; time advances via the
environment's screenshot / settle durations and the recorder's own sleeps.
Stream writes (`ffmpeg.stdin.write` plus an eventual `drain` wait) are
instantaneous; unbounded loops take fuel and return `none` when it runs
out. -/

/-- Observable events of one capture session: screenshots (numbered in
capture order), frame writes to the encoder stdin (tagged with the id of the
screenshot they carry), `nextStep()` calls, and `ffmpeg.stdin.end()`. -/
inductive RecEv where
  | capture (id : Nat)
  | write (id : Nat)
  | nextStepEv
  | endStdin
deriving DecidableEq

/-- Machine state: the clock `t` (`Date.now()` in ms), `writtenFrames`, the
number of screenshots taken so far (`nextCapId`), the id of the most recent
screenshot (`lastCap`), per-primitive call counters, and the event trace. -/
structure RecState where
  t : ℚ
  writtenFrames : Nat
  nextCapId : Nat
  lastCap : Nat
  stepReads : Nat
  nextSteps : Nat
  settles : Nat
  budgets : Nat
  events : List RecEv
deriving DecidableEq

/-- Environment of one capture session. -/
structure RecEnv where
  fps : ℚ
  interval : ℚ
  speedup : ℚ
  timeout : ℚ
  startedAt : ℚ
  endSlideNo : Nat
  captureDur : Nat → ℚ
  captureFail : Nat → Bool
  settleExtra : Nat → ℚ
  budget : Nat → ℚ
  stepInfoSeq : Nat → Mp4StepInfo
  nextStepOk : Nat → Bool
  preTryFails : Bool
  encoderExitCode : ℤ
  encoderLogs : String

/-- `frameInterval = 1000 / videoFps`. -/
def RecEnv.frameInterval (env : RecEnv) : ℚ := 1000 / env.fps

/-- Append an event to the trace. -/
def emitEv (s : RecState) (e : RecEv) : RecState :=
  { s with events := s.events ++ [e] }

/-- `writeFrame(buffer)`: push the buffer into the encoder's stdin (the
eventual backpressure `drain` wait is instantaneous in this model). -/
def writeFrame (s : RecState) (frameId : Nat) : RecState :=
  emitEv s (.write frameId)

/-- One screenshot (`captureFrame`): may reject; otherwise takes
`captureDur` ms and yields the next capture id. -/
def captureFrame (env : RecEnv) (s : RecState) : RecState × Except String Nat :=
  if env.captureFail s.nextCapId then (s, .error "page.screenshot failed")
  else
    let id := s.nextCapId
    ({ s with
        t := s.t + env.captureDur id,
        nextCapId := id + 1,
        lastCap := id,
        events := s.events ++ [RecEv.capture id] }, .ok id)

/-- The `while (writtenFrames < expectedFrames)` loop of `catchUpFrames`. -/
def catchUpLoop (s : RecState) (frameId expected : Nat) : RecState :=
  if s.writtenFrames < expected then
    let s1 := writeFrame s frameId
    catchUpLoop { s1 with writtenFrames := s1.writtenFrames + 1 } frameId expected
  else s
termination_by expected - s.writtenFrames
decreasing_by
  simp only [writeFrame, emitEv]
  omega

/-- `catchUpFrames(buffer)`: duplicate the given frame until
`writtenFrames ≥ max(1, ⌊(now − startedAt) · fps / 1000⌋)`. -/
def catchUpFrames (env : RecEnv) (s : RecState) (frameId : Nat) : RecState :=
  let elapsedMs := s.t - env.startedAt
  let expectedFrames := (max 1 ⌊elapsedMs * env.fps / 1000⌋).toNat
  catchUpLoop s frameId expectedFrames

/-- `captureAndWriteFrame()`: screenshot, write, count, catch up to
wall-clock, then sleep until the next frame slot. -/
def captureAndWriteFrame (env : RecEnv) (s : RecState) : RecState × Except String Nat :=
  match captureFrame env s with
  | (s1, .error e) => (s1, .error e)
  | (s1, .ok frame) =>
    let s2 := writeFrame s1 frame
    let s3 := { s2 with writtenFrames := s2.writtenFrames + 1 }
    let s4 := catchUpFrames env s3 frame
    let elapsedMs := s4.t - env.startedAt
    let nextFrameTime := ((s4.writtenFrames : ℚ) + 1) * env.frameInterval
    let sleepMs := nextFrameTime - elapsedMs
    let s5 := if sleepMs > 0 then { s4 with t := s4.t + sleepMs } else s4
    (s5, .ok frame)

/-- The `while (Date.now() < deadline)` loop of `captureForDuration`. -/
def cfdLoop (env : RecEnv) : Nat → RecState → ℚ → Option (RecState × Option String)
  | 0, _, _ => none
  | fuel + 1, s, deadline =>
    if s.t < deadline then
      match captureAndWriteFrame env s with
      | (s1, .error e) => some (s1, some e)
      | (s1, .ok _) => cfdLoop env fuel s1 deadline
    else some (s, none)

/-- `captureForDuration(durationMs)`. -/
def captureForDuration (env : RecEnv) (fuel : Nat) (s : RecState) (durationMs : ℚ) :
    Option (RecState × Option String) :=
  if durationMs ≤ 0 then some (s, none)
  else cfdLoop env fuel s (s.t + durationMs)

/-- One `getStepInfo()` page evaluation: the environment supplies the
`n`-th observed step info. -/
def getStepInfoOp (env : RecEnv) (s : RecState) : RecState × Mp4StepInfo :=
  ({ s with stepReads := s.stepReads + 1 }, env.stepInfoSeq s.stepReads)

/-- One `nextStep()` page evaluation. -/
def nextStepOp (env : RecEnv) (s : RecState) : RecState × Bool :=
  ({ s with nextSteps := s.nextSteps + 1, events := s.events ++ [RecEv.nextStepEv] },
   env.nextStepOk s.nextSteps)

/-- One `getTransitionSettleBudget()` page evaluation. -/
def getBudgetOp (env : RecEnv) (s : RecState) : RecState × ℚ :=
  ({ s with budgets := s.budgets + 1 }, env.budget s.budgets)

/-- `waitForStepSettled()`: read the settle budget, sleep it, then let the
environment account for the quiescence poll and the two animation frames. -/
def waitForStepSettledOp (env : RecEnv) (s : RecState) : RecState :=
  let (s1, b) := getBudgetOp env s
  let s2 := if b > 0 then { s1 with t := s1.t + b } else s1
  { s2 with t := s2.t + env.settleExtra s2.settles, settles := s2.settles + 1 }

/-- The post-`nextStep` transition-wait loop: capture a frame, read the step
info, stop on a key change, give up at the deadline.  `.ok true` means the
key changed. -/
def transitionWaitLoop (env : RecEnv) :
    Nat → RecState → ℚ → String → Option (RecState × Except String Bool)
  | 0, _, _, _ => none
  | fuel + 1, s, deadline, previousStamp =>
    if s.t < deadline then
      match captureAndWriteFrame env s with
      | (s1, .error e) => some (s1, .error e)
      | (s1, .ok _) =>
        let (s2, current) := getStepInfoOp env s1
        if getStepKey current ≠ previousStamp then some (s2, .ok true)
        else transitionWaitLoop env fuel s2 deadline previousStamp
    else some (s, .ok false)

/-- The transition wait of the main loop: deadline
`Date.now() + min(10000, max(2000, timeout))`; a timeout without a key
change is fatal. -/
def transitionWait (env : RecEnv) (fuel : Nat) (s : RecState) (previousStamp : String) :
    Option (RecState × Option String) :=
  let transitionTimeoutMs := min 10000 (max 2000 env.timeout)
  let transitionDeadline := s.t + transitionTimeoutMs
  match transitionWaitLoop env fuel s transitionDeadline previousStamp with
  | none => none
  | some (s1, .error e) => some (s1, some e)
  | some (s1, .ok changed) =>
    if changed then some (s1, none)
    else some (s1, some ("[slidev] Failed to advance from step " ++ previousStamp))

/-- The `while (true)` main loop of `genPageMp4`: settle, dwell
(`videoInterval · playbackSpeedup`), read the step info and exit past the
range end or when `hasNext` is false; otherwise advance, transition-wait,
and capture through one settle budget. -/
def mainLoop (env : RecEnv) : Nat → RecState → Option (RecState × Option String)
  | 0, _ => none
  | fuel + 1, s =>
    let s1 := waitForStepSettledOp env s
    match captureForDuration env (fuel + 1) s1 (env.interval * env.speedup) with
    | none => none
    | some (s2, some e) => some (s2, some e)
    | some (s2, none) =>
      let (s3, step) := getStepInfoOp env s2
      let canAdvanceInRange := step.no < env.endSlideNo
        || (step.no == env.endSlideNo && step.clicks < step.clicksTotal)
      if !step.hasNext || !canAdvanceInRange then some (s3, none)
      else
        let previousStamp := getStepKey step
        let (s4, advanced) := nextStepOp env s3
        if !advanced then
          some (s4, some "[slidev] Failed to trigger next step in browser context.")
        else
          match transitionWait env (fuel + 1) s4 previousStamp with
          | none => none
          | some (s5, some e) => some (s5, some e)
          | some (s5, none) =>
            let (s6, transitionBudget) := getBudgetOp env s5
            match captureForDuration env (fuel + 1) s6 transitionBudget with
            | none => none
            | some (s7, some e) => some (s7, some e)
            | some (s7, none) => mainLoop env fuel s7

/-- The error message `ffmpegDone` rejects with on a non-zero exit:
the trimmed stderr, or a generic exit-code message. -/
def ffmpegErrorMessage (env : RecEnv) : String :=
  if env.encoderLogs.trim ≠ "" then env.encoderLogs.trim
  else "[slidev] ffmpeg exited with code " ++ toString env.encoderExitCode

/-- The `try` block of the capture phase: initial frame, main loop, final
frame, `ffmpeg.stdin.end()`, then `await ffmpegDone`. -/
def tryCapture (env : RecEnv) (fuel : Nat) (s : RecState) : Option (RecState × Option String) :=
  match captureFrame env s with
  | (s1, .error e) => some (s1, some e)
  | (s1, .ok initialFrame) =>
    let s2 := writeFrame s1 initialFrame
    let s3 := { s2 with writtenFrames := s2.writtenFrames + 1 }
    let s4 := catchUpFrames env s3 initialFrame
    match mainLoop env fuel s4 with
    | none => none
    | some (s5, some e) => some (s5, some e)
    | some (s5, none) =>
      match captureFrame env s5 with
      | (s6, .error e) => some (s6, some e)
      | (s6, .ok lastFrame) =>
        let s7 := writeFrame s6 lastFrame
        let s8 := { s7 with writtenFrames := s7.writtenFrames + 1 }
        let s9 := catchUpFrames env s8 lastFrame
        let s10 := emitEv s9 .endStdin
        if env.encoderExitCode = 0 then some (s10, none)
        else some (s10, some (ffmpegErrorMessage env))

/-- The capture phase of `genPageMp4` after the encoder spawn:
`target.waitFor()` and the clip evaluation happen before the `try` block
(`preTryFails` models either rejecting — stdin is then never closed); on an
exception inside the `try`, the `catch`/rethrow path calls
`ffmpeg.stdin.end()` (again, if the exception came from `ffmpegDone`) and
swallows the encoder's exit error. -/
def genPageMp4Run (env : RecEnv) (fuel : Nat) (s : RecState) :
    Option (RecState × Option String) :=
  if env.preTryFails then some (s, some "locator.waitFor failed")
  else
    match tryCapture env fuel s with
    | none => none
    | some (s1, none) => some (s1, none)
    | some (s1, some e) => some (emitEv s1 .endStdin, some e)

/-- The machine state at the start of the capture phase
(`startedAt = Date.now()` is `env.startedAt`, to be instantiated with
`t0`). -/
def initRecState (t0 : ℚ) : RecState :=
  { t := t0, writtenFrames := 0, nextCapId := 0, lastCap := 0,
    stepReads := 0, nextSteps := 0, settles := 0, budgets := 0, events := [] }

/-- The ids carried by the write events of a trace. -/
def writeIds (evs : List RecEv) : List Nat :=
  evs.filterMap fun e =>
    match e with
    | .write i => some i
    | _ => none

/-- Number of `endStdin` events in a trace. -/
def endCount (evs : List RecEv) : Nat :=
  evs.countP fun e =>
    match e with
    | .endStdin => true
    | _ => false

/-- Number of `nextStepEv` events in a trace. -/
def nextStepCount (evs : List RecEv) : Nat :=
  evs.countP fun e =>
    match e with
    | .nextStepEv => true
    | _ => false

/-- Scan a trace, checking that screenshots are numbered consecutively from
`capCount` and that every write carries an already-captured id, never
smaller than the previous write's id (`lastWrite`).  Returns the final
`(capCount, lastWrite)` on success. -/
def scanTrace : List RecEv → Nat → Nat → Option (Nat × Nat)
  | [], capCount, lastWrite => some (capCount, lastWrite)
  | RecEv.capture i :: r, capCount, lastWrite =>
    if i = capCount then scanTrace r (capCount + 1) lastWrite else none
  | RecEv.write i :: r, capCount, lastWrite =>
    if i < capCount ∧ lastWrite ≤ i then scanTrace r capCount i else none
  | RecEv.nextStepEv :: r, capCount, lastWrite => scanTrace r capCount lastWrite
  | RecEv.endStdin :: r, capCount, lastWrite => scanTrace r capCount lastWrite

/-- A trace is in capture order when the scan succeeds from the empty
state. -/
def goodTrace (evs : List RecEv) : Bool :=
  (scanTrace evs 0 0).isSome

/-! ## Concrete instances used by counterexamples and witnesses -/

/-- A deck with two titled slides of title levels 1 and 3 (a skipped
heading level). -/
def skipLevelSlides : List SlideInfo :=
  [{ index := 0, title := some "A", level := some 1, hideInToc := false },
   { index := 1, title := some "B", level := some 3, hideInToc := false }]

/-- A deck with heading levels 2, 1, 2, 3 and one untitled slide. -/
def mixedLevelSlides : List SlideInfo :=
  [{ index := 0, title := some "A", level := some 2, hideInToc := false },
   { index := 1, title := some "B", level := some 1, hideInToc := false },
   { index := 2, title := some "C", level := some 2, hideInToc := false },
   { index := 3, title := some "D", level := some 3, hideInToc := false },
   { index := 4, title := none, level := some 3, hideInToc := false }]

/-- A capture environment for a single-step deck: instantaneous operations,
zero dwell, and an encoder that exits with code 1. -/
def encoderFailEnv : RecEnv :=
  { fps := 30, interval := 0, speedup := 1, timeout := 30000, startedAt := 0,
    endSlideNo := 1,
    captureDur := fun _ => 0, captureFail := fun _ => false,
    settleExtra := fun _ => 0, budget := fun _ => 0,
    stepInfoSeq := fun _ => { no := 0, clicks := 0, clicksTotal := 0, hasNext := false },
    nextStepOk := fun _ => true, preTryFails := false,
    encoderExitCode := 1, encoderLogs := "" }

/-- The same capture environment with a clean encoder exit. -/
def cleanRunEnv : RecEnv :=
  { encoderFailEnv with encoderExitCode := 0 }

/-- The step info the page reports in a two-slide session: the key changes
after the first read. -/
def twoSlideStepSeq (n : Nat) : Mp4StepInfo :=
  if n = 0 then { no := 1, clicks := 0, clicksTotal := 0, hasNext := true }
  else { no := 2, clicks := 0, clicksTotal := 0, hasNext := false }

/-- A two-slide capture environment: 100 ms screenshots at 10 fps, clean
encoder exit. -/
def twoSlideEnv : RecEnv :=
  { fps := 10, interval := 0, speedup := 1, timeout := 30000, startedAt := 0,
    endSlideNo := 2,
    captureDur := fun _ => 100, captureFail := fun _ => false,
    settleExtra := fun _ => 0, budget := fun _ => 0,
    stepInfoSeq := twoSlideStepSeq,
    nextStepOk := fun _ => true, preTryFails := false,
    encoderExitCode := 0, encoderLogs := "" }

/-- A clean capture environment at 10 fps whose first observed step key
already differs from the saved one, so a transition wait ends on its first
read. -/
def keyChangeEnv : RecEnv := { cleanRunEnv with fps := 10 }

/-- A capture environment whose page never advances: every read reports the
same step key. -/
def stuckStepEnv : RecEnv :=
  { twoSlideEnv with
    stepInfoSeq := fun _ => { no := 1, clicks := 0, clicksTotal := 0, hasNext := true } }

/-- A page with neither bridge shape present. -/
def emptyPageWorld : PageWorld :=
  { slidevExport := none, slidev := none }

/-- MP4 options that pass every validation before the contiguity check. -/
def validMp4Options : Mp4Options :=
  { withClicks := true, videoFps := 30, videoInterval := 2000,
    videoMotionScale := 1, output := "slides-export.mp4" }

/-- A POST body whose `videoSize` does not match `<width>x<height>`. -/
def badSizePayload : PostPayload :=
  { videoInterval := some 2000, videoFps := some 30, videoSize := some "bogus",
    range := none, dark := some false }

/-- A well-formed POST body. -/
def goodPayload : PostPayload :=
  { videoInterval := some 2000, videoFps := some 30, videoSize := some "1920x1080",
    range := some "1-2", dark := some false }

/-- A fixed request date. -/
def sampleDate : DateParts :=
  { year := 2026, monthIndex := 9, day := 12, hour := 10, minute := 30, second := 0 }

/-- A pipeline environment whose external collaborators all succeed. -/
def okPipelineEnv : VideoPipelineEnv :=
  { parsedRange := .ok [1, 2], ffmpegOk := true, goPlayOk := true,
    captureResult := .ok () }

/-- Trace well-formedness invariant of the capture machine: the scan of the
trace succeeds and agrees with the state's counters (`nextCapId` screenshots
so far; the last write id is at most `lastCap`, which is the id of the last
screenshot when one exists). -/
def TraceInv (s : RecState) : Prop :=
  ∃ w, scanTrace s.events 0 0 = some (s.nextCapId, w) ∧ w ≤ s.lastCap ∧
    (s.lastCap < s.nextCapId ∨ (s.nextCapId = 0 ∧ s.lastCap = 0))

/-! # Theorems -/

/-! ## Generic helper lemmas -/

theorem intercalate_go_nil (s acc : String) : String.intercalate.go acc s [] = acc := by
  rw [String.intercalate.go]

theorem intercalate_go_cons (s : String) :
    ∀ (xs : List String) (x acc : String),
      String.intercalate.go acc s (x :: xs) = acc ++ s ++ String.intercalate s (x :: xs) := by
  intro xs
  induction xs with
  | nil =>
    intro x acc
    rw [String.intercalate.go, intercalate_go_nil]
    rfl
  | cons y ys ih =>
    intro x acc
    rw [String.intercalate.go, ih y (acc ++ s ++ x)]
    show _ = acc ++ s ++ String.intercalate.go x s (y :: ys)
    rw [ih y x]
    simp [String.append_assoc]

theorem intercalate_cons_cons (s x y : String) (ys : List String) :
    String.intercalate s (x :: y :: ys) = x ++ s ++ String.intercalate s (y :: ys) := by
  show String.intercalate.go x s (y :: ys) = _
  rw [intercalate_go_cons]

theorem intercalate_append_of_ne_nil (s : String) :
    ∀ (a b : List String), a ≠ [] → b ≠ [] →
      String.intercalate s (a ++ b) =
        String.intercalate s a ++ s ++ String.intercalate s b := by
  intro a
  induction a with
  | nil => intro b h _; exact absurd rfl h
  | cons x a ih =>
    intro b _ hb
    cases a with
    | nil =>
      cases b with
      | nil => exact absurd rfl hb
      | cons y ys => simpa using intercalate_cons_cons s x y ys
    | cons z zs =>
      have e1 : (x :: z :: zs) ++ b = x :: z :: (zs ++ b) := by simp
      have e2 : z :: (zs ++ b) = (z :: zs) ++ b := by simp
      rw [e1, intercalate_cons_cons s x z (zs ++ b), e2, ih b (by simp) hb,
        intercalate_cons_cons s x z zs]
      simp [String.append_assoc]

theorem orZero_eq_getD (x : Option ℚ) : orZero x = x.getD 0 := by
  cases x <;> rfl

theorem parseMsValue_eq_spec (raw : String) :
    parseMsValue raw = specTransitionDuration raw := by
  simp only [parseMsValue, specTransitionDuration, orZero_eq_getD]

/-! ## C8: transition settle budget -/

/-- C8: The MP4 stabilizer's settle budget equals
`clamp(duration + 300ms, 120ms, 3000ms)`, where `duration` is the CSS custom
property `--slidev-transition-duration` parsed accepting an `ms` suffix, an
`s` suffix (times 1000), and unitless values, with an empty or unparsable
value treated as 0.  The conjuncts after the first exercise the parser on
representative inputs. -/
theorem settleBudget_is_clamped_duration (raw : String) :
    getTransitionSettleBudgetOf raw = clampSpec (specTransitionDuration raw + 300) 120 3000 ∧
    getTransitionSettleBudgetOf "" = 300 ∧
    getTransitionSettleBudgetOf "500ms" = 800 ∧
    getTransitionSettleBudgetOf "0.05s" = 350 ∧
    getTransitionSettleBudgetOf "banana" = 300 ∧
    getTransitionSettleBudgetOf "-1000ms" = 120 := by
  refine ⟨?_, ?_, ?_, ?_, ?_, ?_⟩
  · rw [getTransitionSettleBudgetOf, clampSpec, parseMsValue_eq_spec]
  all_goals with_unfolding_all decide

/-! ## C6: non-contiguous MP4 range -/

/-- C6: When the format is mp4 and the expanded range is not contiguous, the
export fails with an error message containing "contiguous", and the failure
happens before the encoder is probed or spawned (no external encoder effect
is reached). -/
theorem mp4_nonContiguous_fails_before_encoder (opts : Mp4Options) (pages : List Nat)
    (ffmpegOk goPlayOk : Bool)
    (hclicks : opts.withClicks = true)
    (hfps : opts.videoFps.den = 1 ∧ 1 ≤ opts.videoFps ∧ opts.videoFps ≤ 60)
    (hint : opts.videoInterval.den = 1 ∧ 0 ≤ opts.videoInterval)
    (hscale : 0 < opts.videoMotionScale)
    (hrange : isContiguousRange pages = false) :
    ∃ e, (mp4Start opts pages ffmpegOk goPlayOk).1 = .error e ∧
      (∃ p q, e = p ++ "contiguous" ++ q) ∧
      (mp4Start opts pages ffmpegOk goPlayOk).2 = [] := by
  have h1 : ¬opts.withClicks = false := by simp [hclicks]
  have h2 : ¬(¬opts.videoFps.den = 1 ∨ opts.videoFps < 1 ∨ opts.videoFps > 60) := by
    push_neg
    exact ⟨hfps.1, hfps.2.1, hfps.2.2⟩
  have h3 : ¬(¬opts.videoInterval.den = 1 ∨ opts.videoInterval < 0) := by
    push_neg
    exact ⟨hint.1, hint.2⟩
  have h4 : parseVideoMotionScale (some opts.videoMotionScale) = .ok opts.videoMotionScale := by
    rw [parseVideoMotionScale]
    simp [not_le.mpr hscale]
  refine ⟨"[slidev] MP4 export currently requires a contiguous --range (for example: \"1-5\").",
    ?_, ⟨"[slidev] MP4 export currently requires a ",
      " --range (for example: \"1-5\").", by with_unfolding_all rfl⟩, ?_⟩ <;>
    rw [mp4Start, if_neg h1, if_neg h2, if_neg h3, h4] <;>
    simp [hrange]

/-- Witness for C6 at a concrete non-contiguous range. -/
theorem mp4_nonContiguous_witness :
    (validMp4Options.withClicks = true ∧ isContiguousRange [1, 3] = false) ∧
    ∃ e, (mp4Start validMp4Options [1, 3] true true).1 = .error e ∧
      (∃ p q, e = p ++ "contiguous" ++ q) ∧
      (mp4Start validMp4Options [1, 3] true true).2 = [] :=
  ⟨⟨rfl, by decide⟩,
    mp4_nonContiguous_fails_before_encoder validMp4Options [1, 3] true true rfl
      (by constructor <;> with_unfolding_all decide)
      (by constructor <;> with_unfolding_all decide)
      (by with_unfolding_all decide)
      (by decide)⟩

/-! ## C9: sanitized filename components -/

theorem collapseDashRuns_nil : collapseDashRuns [] = [] := by
  rw [collapseDashRuns.eq_def]

theorem collapseDashRuns_cons_dash (rest : List Char) :
    collapseDashRuns ('-' :: rest) =
      '-' :: collapseDashRuns (rest.dropWhile (fun d => d = '-')) := by
  rw [collapseDashRuns.eq_def]
  simp

theorem collapseDashRuns_cons_ne (c : Char) (rest : List Char) (h : ¬c = '-') :
    collapseDashRuns (c :: rest) = c :: collapseDashRuns rest := by
  rw [collapseDashRuns.eq_def]
  simp [h]

theorem replaceNonWordRuns_kept :
    ∀ l : List Char, ∀ c ∈ replaceNonWordRuns l, isKeptChar c = true := by
  intro l
  induction l using replaceNonWordRuns.induct with
  | case1 => simp [replaceNonWordRuns]
  | case2 c rest h ih =>
    rw [replaceNonWordRuns, if_pos h]
    intro d hd
    rcases List.mem_cons.1 hd with h1 | h1
    · exact h1 ▸ h
    · exact ih d h1
  | case3 c rest h ih =>
    rw [replaceNonWordRuns, if_neg h]
    intro d hd
    rcases List.mem_cons.1 hd with h1 | h1
    · subst h1; rfl
    · exact ih d h1

theorem collapseDashRuns_kept :
    ∀ l : List Char, (∀ c ∈ l, isKeptChar c = true) →
      ∀ c ∈ collapseDashRuns l, isKeptChar c = true := by
  intro l
  induction l using collapseDashRuns.induct with
  | case1 =>
    intro _ c hc
    rw [collapseDashRuns_nil] at hc
    simp at hc
  | case2 rest ih =>
    intro hk d hd
    rw [collapseDashRuns_cons_dash] at hd
    rcases List.mem_cons.1 hd with h1 | h1
    · subst h1; rfl
    · exact ih
        (fun e he => hk e (List.mem_cons_of_mem '-' ((List.dropWhile_sublist _).subset he)))
        d h1
  | case3 c rest h ih =>
    intro hk d hd
    rw [collapseDashRuns_cons_ne c rest h] at hd
    rcases List.mem_cons.1 hd with h1 | h1
    · exact h1 ▸ hk c (List.mem_cons_self c rest)
    · exact ih (fun e he => hk e (List.mem_cons_of_mem c he)) d h1

theorem collapseDashRuns_head (l : List Char) :
    (collapseDashRuns l).head? = l.head? := by
  induction l using collapseDashRuns.induct with
  | case1 => rw [collapseDashRuns_nil]
  | case2 rest ih => rw [collapseDashRuns_cons_dash]; rfl
  | case3 c rest h ih => rw [collapseDashRuns_cons_ne c rest h]; rfl

theorem head?_dropWhile_false (p : Char → Bool) :
    ∀ (l : List Char) (c : Char), (l.dropWhile p).head? = some c → p c = false := by
  intro l
  induction l with
  | nil => intro c h; simp [List.dropWhile] at h
  | cons a r ih =>
    intro c h
    rw [List.dropWhile_cons] at h
    by_cases hp : p a = true
    · rw [if_pos hp] at h
      exact ih c h
    · rw [if_neg hp] at h
      simp at h
      rw [← h]
      simpa using hp

theorem collapseDashRuns_noDoubleDash (l : List Char) :
    NoDoubleDash (collapseDashRuns l) := by
  induction l using collapseDashRuns.induct with
  | case1 => rw [collapseDashRuns_nil]; exact List.chain'_nil
  | case2 rest ih =>
    rw [collapseDashRuns_cons_dash]
    refine List.chain'_cons'.2 ⟨?_, ih⟩
    intro b hb hcontra
    rw [collapseDashRuns_head] at hb
    have hfalse := head?_dropWhile_false _ _ _ hb
    rw [hcontra.2] at hfalse
    simp at hfalse
  | case3 c rest h ih =>
    rw [collapseDashRuns_cons_ne c rest h]
    refine List.chain'_cons'.2 ⟨?_, ih⟩
    intro b _ hcontra
    exact h hcontra.1

theorem stripLead_facts (l : List Char)
    (hk : ∀ c ∈ l, isKeptChar c = true) (hch : NoDoubleDash l) :
    (∀ c ∈ (if l.head? = some '-' then l.tail else l), isKeptChar c = true) ∧
    (if l.head? = some '-' then l.tail else l).head? ≠ some '-' ∧
    NoDoubleDash (if l.head? = some '-' then l.tail else l) := by
  by_cases hh : l.head? = some '-'
  · rw [if_pos hh]
    cases l with
    | nil => simp at hh
    | cons a r =>
      have ha : a = '-' := by simpa using hh
      refine ⟨fun c hc => hk c (List.mem_cons_of_mem a hc), ?_, ?_⟩
      · intro hr
        have hpair := (List.chain'_cons'.1 hch).1 '-' (by simpa using hr)
        exact hpair ⟨ha, rfl⟩
      · exact (List.chain'_cons'.1 hch).2
  · rw [if_neg hh]
    exact ⟨hk, hh, hch⟩

theorem stripTrail_facts (l1 : List Char)
    (hk : ∀ c ∈ l1, isKeptChar c = true) (hh : l1.head? ≠ some '-')
    (hch : NoDoubleDash l1) :
    (∀ c ∈ (if l1.getLast? = some '-' then l1.dropLast else l1), isKeptChar c = true) ∧
    (if l1.getLast? = some '-' then l1.dropLast else l1).head? ≠ some '-' ∧
    (if l1.getLast? = some '-' then l1.dropLast else l1).getLast? ≠ some '-' ∧
    NoDoubleDash (if l1.getLast? = some '-' then l1.dropLast else l1) := by
  by_cases hl : l1.getLast? = some '-'
  · rw [if_pos hl]
    rcases List.eq_nil_or_concat l1 with rfl | ⟨l2, a, rfl⟩
    · simp at hl
    · simp only [List.concat_eq_append] at hk hh hch hl ⊢
      have ha : a = '-' := by simpa [List.getLast?_concat] using hl
      have hdrop : (l2 ++ [a]).dropLast = l2 := by
        simp [List.dropLast_concat]
      have hsplit := List.chain'_append.1 hch
      have hlast : l2.getLast? ≠ some '-' := by
        intro heq
        exact hsplit.2.2 '-' heq '-' (by simp [ha]) ⟨rfl, rfl⟩
      have hl2ne : l2 ≠ [] := by
        rintro rfl
        exact hh (by simp [ha])
      rw [hdrop]
      refine ⟨fun c hc => hk c (by simp [hc]), ?_, hlast, hsplit.1⟩
      cases l2 with
      | nil => exact absurd rfl hl2ne
      | cons x xs =>
        intro hx
        exact hh (by simpa using hx)
  · rw [if_neg hl]
    exact ⟨hk, hh, hl, hch⟩

/-- C9: For every input string, the filename-component sanitizer returns a
string whose characters all lie in `[\w.-]`, with no leading `-`, no
trailing `-`, and no two consecutive `-` characters. -/
theorem sanitizePart_wellFormed (value : String) :
    (∀ c ∈ (sanitizePart value).data, isKeptChar c = true) ∧
    (sanitizePart value).data.head? ≠ some '-' ∧
    (sanitizePart value).data.getLast? ≠ some '-' ∧
    NoDoubleDash (sanitizePart value).data := by
  have hdata : (sanitizePart value).data =
      stripEdgeDashes (collapseDashRuns (replaceNonWordRuns value.trim.data)) := rfl
  have k1 := replaceNonWordRuns_kept value.trim.data
  have k2 := collapseDashRuns_kept (replaceNonWordRuns value.trim.data) k1
  have nodd := collapseDashRuns_noDoubleDash (replaceNonWordRuns value.trim.data)
  have hlead := stripLead_facts (collapseDashRuns (replaceNonWordRuns value.trim.data)) k2 nodd
  have htrail := stripTrail_facts _ hlead.1 hlead.2.1 hlead.2.2
  rw [hdata]
  exact ⟨htrail.1, htrail.2.1, htrail.2.2.1, htrail.2.2.2⟩

/-! ## C2: TOC outline lemmas -/

mutual

theorem tocForestInd (P : List TocItem → Prop) (Q : TocItem → Prop)
    (hnil : P []) (hcons : ∀ item rest, Q item → P rest → P (item :: rest))
    (hnode : ∀ no children level tl path hide title, P children →
      Q (TocItem.node no children level tl path hide title)) :
    ∀ l : List TocItem, P l
  | [] => hnil
  | item :: rest =>
    hcons item rest (tocItemInd P Q hnil hcons hnode item)
      (tocForestInd P Q hnil hcons hnode rest)

theorem tocItemInd (P : List TocItem → Prop) (Q : TocItem → Prop)
    (hnil : P []) (hcons : ∀ item rest, Q item → P rest → P (item :: rest))
    (hnode : ∀ no children level tl path hide title, P children →
      Q (TocItem.node no children level tl path hide title)) :
    ∀ t : TocItem, Q t
  | .node no children level tl path hide title =>
    hnode no children level tl path hide title (tocForestInd P Q hnil hcons hnode children)

end

theorem tocSize_append (l1 l2 : List TocItem) :
    tocSize (l1 ++ l2) = tocSize l1 + tocSize l2 := by
  induction l1 with
  | nil => simp [tocSize]
  | cons item rest ih => simp [tocSize, ih]; omega

theorem tree_eq_dropLast_append (tree : List TocItem) (last : TocItem)
    (hlast : tree.getLast? = some last) :
    tree = tree.dropLast ++ [last] := by
  have hne : tree ≠ [] := by rintro rfl; simp at hlast
  have hg : tree.getLast hne = last := by
    rw [List.getLast?_eq_getLast tree hne] at hlast
    exact Option.some_inj.1 hlast
  rw [← hg]
  exact (List.dropLast_append_getLast hne).symm

theorem addToTreeGo_size (slideIndexes : Nat → Nat) (info : SlideInfo) (titleLevel : Nat) :
    ∀ (tree : List TocItem) (level : Nat),
      tocSize (addToTreeGo slideIndexes info titleLevel tree level) = tocSize tree + 1 := by
  intro tree level
  induction tree, level using addToTreeGo.induct slideIndexes info titleLevel with
  | case1 tree level last hlast hcond ih =>
    rw [addToTreeGo, hlast]
    dsimp only
    rw [dif_pos hcond]
    rw [tocSize_append]
    cases last with
    | node no c lv tl p hd t =>
      conv_rhs => rw [tree_eq_dropLast_append tree _ hlast, tocSize_append]
      simp only [TocItem.setChildren, TocItem.children] at ih ⊢
      simp only [tocSize, tocItemSize] at ih ⊢
      omega
  | case2 tree level last hlast hcond =>
    rw [addToTreeGo, hlast]
    dsimp only
    rw [dif_neg hcond]
    rw [tocSize_append]
    simp [tocSize, tocItemSize]
  | case3 tree level hlast =>
    rw [addToTreeGo, hlast]
    dsimp only
    rw [tocSize_append]
    simp [tocSize, tocItemSize]

theorem addToTree_size (slideIndexes : Nat → Nat) (info : SlideInfo)
    (tree : List TocItem) (level : Nat) :
    tocSize (addToTree slideIndexes info tree level) = tocSize tree + 1 := by
  rw [addToTree]
  cases info.level with
  | some tl => exact addToTreeGo_size slideIndexes info tl tree level
  | none =>
    rw [tocSize_append]
    simp [tocSize, tocItemSize]

theorem buildTocTree_size (slideIndexes : Nat → Nat) (slides : List SlideInfo) :
    tocSize (buildTocTree slideIndexes slides) = (slides.filter SlideInfo.hasTitle).length := by
  rw [buildTocTree]
  generalize slides.filter SlideInfo.hasTitle = ls
  suffices h : ∀ (ls : List SlideInfo) (acc : List TocItem),
      tocSize (ls.foldl (fun acc s => addToTree slideIndexes s acc 1) acc) =
        tocSize acc + ls.length by
    simpa [tocSize] using h ls []
  intro ls
  induction ls with
  | nil => simp
  | cons s rest ih =>
    intro acc
    rw [List.foldl_cons, ih (addToTree slideIndexes s acc 1), addToTree_size]
    simp [List.length_cons]
    omega

theorem preorderLines_length : ∀ l : List TocItem, (preorderLines l).length = tocSize l :=
  tocForestInd (fun l => (preorderLines l).length = tocSize l)
    (fun t => (itemLines t).length = tocItemSize t)
    (by simp [preorderLines, tocSize])
    (fun item rest h1 h2 => by simp [preorderLines, tocSize, h1, h2])
    (fun no children level tl path hide title hc => by
      simp [itemLines, tocItemSize, hc]
      omega)

theorem allTitled_append (l1 l2 : List TocItem) :
    allTitled (l1 ++ l2) = (allTitled l1 && allTitled l2) := by
  induction l1 with
  | nil => simp [allTitled]
  | cons item rest ih => simp [allTitled, ih, Bool.and_assoc]

theorem addToTreeGo_allTitled (slideIndexes : Nat → Nat) (info : SlideInfo) (titleLevel : Nat)
    (htitle : info.title.getD "" ≠ "") :
    ∀ (tree : List TocItem) (level : Nat), allTitled tree = true →
      allTitled (addToTreeGo slideIndexes info titleLevel tree level) = true := by
  intro tree level
  induction tree, level using addToTreeGo.induct slideIndexes info titleLevel with
  | case1 tree level last hlast hcond ih =>
    intro hall
    rw [addToTreeGo, hlast]
    dsimp only
    rw [dif_pos hcond]
    rw [tree_eq_dropLast_append tree _ hlast, allTitled_append] at hall
    simp only [Bool.and_eq_true] at hall
    rw [allTitled_append]
    cases last with
    | node no c lv tl p hd t =>
      simp only [TocItem.setChildren, TocItem.children] at ih ⊢
      simp only [allTitled, itemTitled, Bool.and_eq_true] at hall ⊢
      tauto
  | case2 tree level last hlast hcond =>
    intro hall
    rw [addToTreeGo, hlast]
    dsimp only
    rw [dif_neg hcond, allTitled_append]
    simp [allTitled, itemTitled, hall, htitle]
  | case3 tree level hlast =>
    intro hall
    rw [addToTreeGo, hlast]
    dsimp only
    rw [allTitled_append]
    simp [allTitled, itemTitled, hall, htitle]

theorem addToTree_allTitled (slideIndexes : Nat → Nat) (info : SlideInfo)
    (htitle : info.title.getD "" ≠ "") (tree : List TocItem) (level : Nat)
    (hall : allTitled tree = true) :
    allTitled (addToTree slideIndexes info tree level) = true := by
  rw [addToTree]
  cases info.level with
  | some tl => exact addToTreeGo_allTitled slideIndexes info tl htitle tree level hall
  | none =>
    rw [allTitled_append]
    simp [allTitled, itemTitled, hall, htitle]

theorem buildTocTree_allTitled (slideIndexes : Nat → Nat) (slides : List SlideInfo) :
    allTitled (buildTocTree slideIndexes slides) = true := by
  rw [buildTocTree]
  suffices h : ∀ (ls : List SlideInfo) (acc : List TocItem),
      (∀ s ∈ ls, s.hasTitle = true) → allTitled acc = true →
      allTitled (ls.foldl (fun acc s => addToTree slideIndexes s acc 1) acc) = true by
    exact h _ [] (fun s hs => (List.mem_filter.1 hs).2) rfl
  intro ls
  induction ls with
  | nil => intro acc _ hacc; exact hacc
  | cons s rest ih =>
    intro acc hls hacc
    rw [List.foldl_cons]
    refine ih _ (fun x hx => hls x (List.mem_cons_of_mem s hx)) ?_
    have hst : s.hasTitle = true := hls s (List.mem_cons_self s rest)
    have htitle : s.title.getD "" ≠ "" := by
      rcases s with ⟨i, t, lv, hide⟩
      cases t with
      | none => simp [SlideInfo.hasTitle] at hst
      | some str => simpa [SlideInfo.hasTitle] using hst
    exact addToTree_allTitled slideIndexes s htitle acc 1 hacc

theorem depthsOk_append (l1 l2 : List TocItem) (d : Nat) :
    depthsOk (l1 ++ l2) d = (depthsOk l1 d && depthsOk l2 d) := by
  induction l1 with
  | nil => simp [depthsOk]
  | cons item rest ih => simp [depthsOk, ih, Bool.and_assoc]

theorem addToTreeGo_depthsOk (slideIndexes : Nat → Nat) (info : SlideInfo) (titleLevel : Nat) :
    ∀ (tree : List TocItem) (level : Nat), depthsOk tree level = true →
      depthsOk (addToTreeGo slideIndexes info titleLevel tree level) level = true := by
  intro tree level
  induction tree, level using addToTreeGo.induct slideIndexes info titleLevel with
  | case1 tree level last hlast hcond ih =>
    intro hd
    rw [addToTreeGo, hlast]
    dsimp only
    rw [dif_pos hcond]
    rw [tree_eq_dropLast_append tree _ hlast, depthsOk_append] at hd
    simp only [Bool.and_eq_true] at hd
    rw [depthsOk_append]
    cases last with
    | node no c lv tl p hd2 t =>
      simp only [TocItem.setChildren, TocItem.children] at ih ⊢
      simp only [depthsOk, itemDepthOk, Bool.and_eq_true] at hd ⊢
      tauto
  | case2 tree level last hlast hcond =>
    intro hd
    rw [addToTreeGo, hlast]
    dsimp only
    rw [dif_neg hcond, depthsOk_append]
    simp [depthsOk, itemDepthOk, hd]
  | case3 tree level hlast =>
    intro hd
    rw [addToTreeGo, hlast]
    dsimp only
    rw [depthsOk_append]
    simp [depthsOk, itemDepthOk, hd]

theorem addToTree_depthsOk (slideIndexes : Nat → Nat) (info : SlideInfo)
    (tree : List TocItem) (level : Nat) (hd : depthsOk tree level = true) :
    depthsOk (addToTree slideIndexes info tree level) level = true := by
  rw [addToTree]
  cases info.level with
  | some tl => exact addToTreeGo_depthsOk slideIndexes info tl tree level hd
  | none =>
    rw [depthsOk_append]
    simp [depthsOk, itemDepthOk, hd]

theorem buildTocTree_depthsOk (slideIndexes : Nat → Nat) (slides : List SlideInfo) :
    depthsOk (buildTocTree slideIndexes slides) 1 = true := by
  rw [buildTocTree]
  suffices h : ∀ (ls : List SlideInfo) (acc : List TocItem), depthsOk acc 1 = true →
      depthsOk (ls.foldl (fun acc s => addToTree slideIndexes s acc 1) acc) 1 = true by
    exact h _ [] rfl
  intro ls
  induction ls with
  | nil => intro acc hacc; exact hacc
  | cons s rest ih =>
    intro acc hacc
    rw [List.foldl_cons]
    exact ih _ (addToTree_depthsOk slideIndexes s acc 1 hacc)

theorem flatten_ne_nil_of_head (c : List String) (rest : List (List String)) (hc : c ≠ []) :
    (c :: rest).flatten ≠ [] := by
  simp only [List.flatten_cons]
  intro h
  rcases List.append_eq_nil.1 h with ⟨h1, _⟩
  exact hc h1

theorem intercalate_singleton (s x : String) : String.intercalate s [x] = x := by
  show String.intercalate.go x s [] = x
  exact intercalate_go_nil s x

theorem intercalate_map_intercalate (s : String) :
    ∀ L : List (List String), (∀ x ∈ L, x ≠ []) →
      String.intercalate s (L.map (String.intercalate s)) = String.intercalate s L.flatten := by
  intro L
  induction L with
  | nil => intro _; rfl
  | cons c rest ih =>
    intro hne
    have hc : c ≠ [] := hne c (List.mem_cons_self c rest)
    rw [List.map_cons, List.flatten_cons]
    cases rest with
    | nil =>
      rw [List.map_nil, List.flatten_nil, List.append_nil, intercalate_singleton]
    | cons d rest2 =>
      have hd : d ≠ [] := hne d (List.mem_cons_of_mem c (List.mem_cons_self d rest2))
      have hflat : (d :: rest2).flatten ≠ [] := flatten_ne_nil_of_head d rest2 hd
      have hrec := ih (fun x hx => hne x (List.mem_cons_of_mem c hx))
      rw [List.map_cons] at hrec ⊢
      rw [intercalate_cons_cons, hrec,
        intercalate_append_of_ne_nil s c (d :: rest2).flatten hc hflat]

theorem preorderLines_nil : preorderLines [] = [] := by
  rw [preorderLines]

theorem preorderLines_cons (item : TocItem) (rest : List TocItem) :
    preorderLines (item :: rest) = itemLines item ++ preorderLines rest := by
  rw [preorderLines]

theorem itemLines_node (no : Nat) (children : List TocItem) (level tl : Nat)
    (path : String) (hide : Bool) (title : String) :
    itemLines (TocItem.node no children level tl path hide title) =
      (path ++ "|" ++ dashes (level - 1) ++ "|" ++ title) :: preorderLines children := by
  rw [itemLines]

theorem outlineEntries_nil : outlineEntries [] = [] := by
  rw [outlineEntries]

theorem outlineEntries_cons (item : TocItem) (rest : List TocItem) :
    outlineEntries (item :: rest) = tocEntry item :: outlineEntries rest := by
  rw [outlineEntries]

theorem allTitled_cons (item : TocItem) (rest : List TocItem) :
    allTitled (item :: rest) = (itemTitled item && allTitled rest) := by
  rw [allTitled]

theorem itemTitled_node (no : Nat) (children : List TocItem) (level tl : Nat)
    (path : String) (hide : Bool) (title : String) :
    itemTitled (TocItem.node no children level tl path hide title) =
      (decide (title ≠ "") && allTitled children) := by
  rw [itemTitled]

theorem truthyStrings_nil : truthyStrings [] = [] := rfl

theorem truthyStrings_some_cons (s : String) (rest : List (Option String)) (h : s ≠ "") :
    truthyStrings (some s :: rest) = s :: truthyStrings rest := by
  simp [truthyStrings, List.filterMap_cons, h]

theorem preorderLines_eq_flatten (l : List TocItem) :
    preorderLines l = (l.map itemLines).flatten := by
  induction l with
  | nil => simp [preorderLines_nil]
  | cons item rest ih => simp [preorderLines_cons, ih]

theorem itemLines_ne_nil (t : TocItem) : itemLines t ≠ [] := by
  cases t with
  | node no c lv tl p h ttl => simp [itemLines_node]

theorem forestChunks_intercalate (l : List TocItem) :
    String.intercalate "\n" (forestChunks l) = String.intercalate "\n" (preorderLines l) := by
  have h1 : forestChunks l = (l.map itemLines).map (String.intercalate "\n") := by
    rw [forestChunks, List.map_map]
    rfl
  rw [h1, intercalate_map_intercalate "\n" (l.map itemLines)
    (fun x hx => by
      rcases List.mem_map.1 hx with ⟨t, _, rfl⟩
      exact itemLines_ne_nil t),
    ← preorderLines_eq_flatten]

theorem nodeLine_length_pos (path : String) (n : Nat) (title : String) :
    0 < (path ++ "|" ++ dashes n ++ "|" ++ title).length := by
  have hbar : "|".length = 1 := rfl
  simp only [String.length_append, hbar]
  omega

theorem preorderLines_length_pos :
    ∀ l : List TocItem, ∀ x ∈ preorderLines l, 0 < x.length :=
  tocForestInd (fun l => ∀ x ∈ preorderLines l, 0 < x.length)
    (fun t => ∀ x ∈ itemLines t, 0 < x.length)
    (by simp [preorderLines_nil])
    (fun item rest h1 h2 => by
      intro x hx
      rw [preorderLines_cons] at hx
      rcases List.mem_append.1 hx with h | h
      · exact h1 x h
      · exact h2 x h)
    (fun no children level tl path hide title hc => by
      intro x hx
      rw [itemLines_node] at hx
      rcases List.mem_cons.1 hx with rfl | h
      · exact nodeLine_length_pos path (level - 1) title
      · exact hc x h)

theorem string_ne_empty_of_length_pos (s : String) (h : 0 < s.length) : s ≠ "" := by
  intro heq
  rw [heq] at h
  simp at h

theorem intercalate_length_pos (x : String) (xs : List String) (hx : 0 < x.length) :
    0 < (String.intercalate "\n" (x :: xs)).length := by
  cases xs with
  | nil => simpa [intercalate_singleton] using hx
  | cons y ys =>
    rw [intercalate_cons_cons]
    simp only [String.length_append]
    omega

theorem intercalate_ne_empty (x : String) (xs : List String) (hx : 0 < x.length) :
    String.intercalate "\n" (x :: xs) ≠ "" :=
  string_ne_empty_of_length_pos _ (intercalate_length_pos x xs hx)

theorem makeOutline_nil : makeOutline [] = "" := by
  rw [makeOutline, outlineEntries_nil, truthyStrings_nil]
  rfl

theorem tocEntry_node_titled (no : Nat) (children : List TocItem) (level tl : Nat)
    (path : String) (hide : Bool) (title : String) (ht : title ≠ "") :
    tocEntry (TocItem.node no children level tl path hide title) =
      (if (makeOutline children).length > 0 then
        some ((path ++ "|" ++ dashes (level - 1) ++ "|" ++ title) ++ "\n" ++ makeOutline children)
      else some (path ++ "|" ++ dashes (level - 1) ++ "|" ++ title)) := by
  rw [tocEntry]
  rw [if_pos ht]

theorem truthyStrings_eq_chunks :
    ∀ l : List TocItem, allTitled l = true →
      truthyStrings (outlineEntries l) = forestChunks l :=
  tocForestInd
    (fun l => allTitled l = true → truthyStrings (outlineEntries l) = forestChunks l)
    (fun t => itemTitled t = true → tocEntry t = some (itemChunk t) ∧ itemChunk t ≠ "")
    (fun _ => by rw [outlineEntries_nil, truthyStrings_nil]; rfl)
    (fun item rest hQ hP => by
      intro hall
      rw [allTitled_cons, Bool.and_eq_true] at hall
      obtain ⟨hentry, hne⟩ := hQ hall.1
      rw [outlineEntries_cons, hentry, truthyStrings_some_cons _ _ hne, hP hall.2]
      rfl)
    (fun no children level tl path hide title hP => by
      intro ht
      rw [itemTitled_node, Bool.and_eq_true, decide_eq_true_iff] at ht
      have hchildren : makeOutline children =
          String.intercalate "\n" (preorderLines children) := by
        rw [makeOutline, hP ht.2, forestChunks_intercalate]
      have hline := nodeLine_length_pos path (level - 1) title
      have hchunk : itemChunk (TocItem.node no children level tl path hide title) =
          String.intercalate "\n"
            ((path ++ "|" ++ dashes (level - 1) ++ "|" ++ title) :: preorderLines children) := by
        rw [itemChunk, itemLines_node]
      cases children with
      | nil =>
        refine ⟨?_, ?_⟩
        · rw [tocEntry_node_titled no [] level tl path hide title ht.1,
            if_neg (by rw [makeOutline_nil]; simp)]
          rw [hchunk, preorderLines_nil, intercalate_singleton]
        · rw [hchunk]
          exact intercalate_ne_empty _ _ hline
      | cons d rest2 =>
        have hfirst : ∃ y ys, preorderLines (d :: rest2) = y :: ys := by
          rw [preorderLines_cons]
          cases hil : itemLines d with
          | nil => exact absurd hil (itemLines_ne_nil d)
          | cons y ys => exact ⟨y, ys ++ preorderLines rest2, by simp⟩
        obtain ⟨y, ys, hy⟩ := hfirst
        have hypos : 0 < y.length :=
          preorderLines_length_pos (d :: rest2) y (hy ▸ List.mem_cons_self y ys)
        have hco_pos : (makeOutline (d :: rest2)).length > 0 := by
          rw [hchildren, hy]
          exact intercalate_length_pos y ys hypos
        refine ⟨?_, ?_⟩
        · rw [tocEntry_node_titled no (d :: rest2) level tl path hide title ht.1,
            if_pos hco_pos, hchunk, hy, intercalate_cons_cons, ← hy, ← hchildren]
        · rw [hchunk]
          exact intercalate_ne_empty _ _ hline)

theorem makeOutline_eq_intercalate (l : List TocItem) (hall : allTitled l = true) :
    makeOutline l = String.intercalate "\n" (preorderLines l) := by
  rw [makeOutline, truthyStrings_eq_chunks l hall, forestChunks_intercalate]

theorem preorderLines_shape :
    ∀ l : List TocItem, ∀ x ∈ preorderLines l,
      ∃ p lv ttl, x = p ++ "|" ++ dashes (lv - 1) ++ "|" ++ ttl :=
  tocForestInd
    (fun l => ∀ x ∈ preorderLines l, ∃ p lv ttl, x = p ++ "|" ++ dashes (lv - 1) ++ "|" ++ ttl)
    (fun t => ∀ x ∈ itemLines t, ∃ p lv ttl, x = p ++ "|" ++ dashes (lv - 1) ++ "|" ++ ttl)
    (by simp [preorderLines_nil])
    (fun item rest h1 h2 => by
      intro x hx
      rw [preorderLines_cons] at hx
      rcases List.mem_append.1 hx with h | h
      · exact h1 x h
      · exact h2 x h)
    (fun no children level tl path hide title hc => by
      intro x hx
      rw [itemLines_node] at hx
      rcases List.mem_cons.1 hx with rfl | h
      · exact ⟨path, level, title, rfl⟩
      · exact hc x h)

/-- C2 (amended): for every deck, the PDF TOC outline emits exactly one line
per titled slide — the outline is the newline-join of the tree's preorder
lines, whose count equals the number of titled slides — and each line is
`<page>|<dashes>|<title>` where the number of dashes is the node's *tree
depth* minus 1 (`depthsOk`: the `level` stored in each node is its depth).
The dash count equals `title_level - 1` only when heading levels increase
without gaps; the counterexample shows a deck where they differ. -/
theorem makeOutline_one_line_per_titled_slide (slideIndexes : Nat → Nat)
    (slides : List SlideInfo) :
    makeOutline (buildTocTree slideIndexes slides) =
      String.intercalate "\n" (preorderLines (buildTocTree slideIndexes slides)) ∧
    (preorderLines (buildTocTree slideIndexes slides)).length =
      (slides.filter SlideInfo.hasTitle).length ∧
    depthsOk (buildTocTree slideIndexes slides) 1 = true ∧
    (∀ x ∈ preorderLines (buildTocTree slideIndexes slides),
      ∃ p lv ttl, x = p ++ "|" ++ dashes (lv - 1) ++ "|" ++ ttl) :=
  ⟨makeOutline_eq_intercalate _ (buildTocTree_allTitled slideIndexes slides),
   by rw [preorderLines_length, buildTocTree_size],
   buildTocTree_depthsOk slideIndexes slides,
   preorderLines_shape _⟩

/-- C2 counterexample: in a deck whose two titled slides have heading levels
1 and 3, the line emitted for the level-3 slide carries one dash (its tree
depth is 2), not `title_level − 1 = 2` dashes as the claim states. -/
theorem makeOutline_dashes_ne_titleLevel_sub_one :
    makeOutline (buildTocTree (fun _ => 1) skipLevelSlides) = "1||A\n1|-|B" ∧
    preorderLines (buildTocTree (fun _ => 1) skipLevelSlides) = ["1||A", "1|-|B"] ∧
    (skipLevelSlides.getD 1 ⟨0, none, none, false⟩).level = some 3 ∧
    "1|-|B" ≠ "1|" ++ dashes (3 - 1) ++ "|B" := by
  refine ⟨?_, ?_, ?_, ?_⟩ <;> with_unfolding_all decide

/-! ## MP4 recorder machine lemmas -/

theorem catchUpLoop_spec (frameId expected : Nat) :
    ∀ (n : Nat) (s : RecState), expected - s.writtenFrames = n →
      catchUpLoop s frameId expected =
        { s with writtenFrames := max s.writtenFrames expected,
                 events := s.events ++
                   List.replicate (max s.writtenFrames expected - s.writtenFrames)
                     (RecEv.write frameId) } := by
  intro n
  induction n with
  | zero =>
    intro s h0
    have hle : expected ≤ s.writtenFrames := by omega
    rw [catchUpLoop, if_neg (by omega)]
    rw [Nat.max_eq_left hle]
    simp
  | succ k ih =>
    intro s hk
    have h : s.writtenFrames < expected := by omega
    rw [catchUpLoop, if_pos h]
    dsimp only
    rw [ih _ (by simp [writeFrame, emitEv]; omega)]
    have hm1 : max s.writtenFrames expected = expected := Nat.max_eq_right (by omega)
    have hm2 : max (s.writtenFrames + 1) expected = expected := Nat.max_eq_right (by omega)
    simp only [writeFrame, emitEv]
    congr 1
    · rw [hm1, hm2]
    · rw [hm1, hm2]
      have hrep : expected - s.writtenFrames = (expected - (s.writtenFrames + 1)) + 1 := by
        omega
      rw [hrep, List.replicate_succ, List.append_assoc]
      rfl

theorem captureFrame_ok (env : RecEnv) (s : RecState)
    (hfail : env.captureFail s.nextCapId = false) :
    captureFrame env s =
      ({ s with t := s.t + env.captureDur s.nextCapId,
                nextCapId := s.nextCapId + 1,
                lastCap := s.nextCapId,
                events := s.events ++ [RecEv.capture s.nextCapId] }, .ok s.nextCapId) := by
  rw [captureFrame, if_neg (by simp [hfail])]

theorem captureFrame_fail (env : RecEnv) (s : RecState)
    (hfail : env.captureFail s.nextCapId = true) :
    captureFrame env s = (s, .error "page.screenshot failed") := by
  rw [captureFrame, if_pos hfail]

theorem captureAndWriteFrame_eq (env : RecEnv) (s : RecState)
    (hfail : env.captureFail s.nextCapId = false) :
    ∃ s', captureAndWriteFrame env s = (s', .ok s.nextCapId) ∧
      s'.writtenFrames = max (s.writtenFrames + 1)
        (max 1 ⌊(s.t + env.captureDur s.nextCapId - env.startedAt) * env.fps / 1000⌋).toNat ∧
      s'.events = s.events ++ [RecEv.capture s.nextCapId] ++
        List.replicate (s'.writtenFrames - s.writtenFrames) (RecEv.write s.nextCapId) ∧
      s'.t = s.t + env.captureDur s.nextCapId +
        max 0 (((s'.writtenFrames : ℚ) + 1) * env.frameInterval -
          (s.t + env.captureDur s.nextCapId - env.startedAt)) ∧
      s'.nextCapId = s.nextCapId + 1 ∧
      s'.lastCap = s.nextCapId ∧
      s'.stepReads = s.stepReads ∧ s'.nextSteps = s.nextSteps ∧
      s'.settles = s.settles ∧ s'.budgets = s.budgets := by
  rw [captureAndWriteFrame, captureFrame_ok env s hfail]
  dsimp only
  rw [writeFrame, emitEv, catchUpFrames]
  dsimp only
  rw [catchUpLoop_spec _ _ _ _ rfl]
  dsimp only
  set tCap := s.t + env.captureDur s.nextCapId with htCap
  set expect := (max 1 ⌊(tCap - env.startedAt) * env.fps / 1000⌋).toNat with hexpect
  set w1 := max (s.writtenFrames + 1) expect with hw1
  have hge : s.writtenFrames + 1 ≤ w1 := Nat.le_max_left _ _
  set sleepMs := ((w1 : ℚ) + 1) * env.frameInterval - (tCap - env.startedAt) with hsleep
  by_cases hpos : sleepMs > 0
  · rw [if_pos hpos]
    refine ⟨_, rfl, rfl, ?_, ?_, rfl, rfl, rfl, rfl, rfl, rfl⟩
    · dsimp only
      have hrep : w1 - s.writtenFrames = (w1 - (s.writtenFrames + 1)) + 1 := by omega
      rw [hrep, List.replicate_succ]
      simp
    · dsimp only
      rw [max_eq_right (le_of_lt hpos)]
  · rw [if_neg hpos]
    refine ⟨_, rfl, rfl, ?_, ?_, rfl, rfl, rfl, rfl, rfl, rfl⟩
    · dsimp only
      have hrep : w1 - s.writtenFrames = (w1 - (s.writtenFrames + 1)) + 1 := by omega
      rw [hrep, List.replicate_succ]
      simp
    · dsimp only
      rw [max_eq_left (not_lt.1 hpos), add_zero]

/-! ## C5: frame catch-up and pacing -/

/-- C5: After writing each captured frame, the recorder computes
`expectedFrames = max(1, floor((now − startedAt) · fps / 1000))` and
duplicates the last frame until `writtenFrames` is at least
`expectedFrames`; it then sleeps
`max(0, (writtenFrames + 1) · (1000 / fps) − elapsedSinceStart)` ms before
the next capture (the resulting clock is exactly the capture time plus that
sleep). -/
theorem captureAndWriteFrame_paces_frames (env : RecEnv) (s : RecState)
    (hfail : env.captureFail s.nextCapId = false) :
    ∃ s', captureAndWriteFrame env s = (s', .ok s.nextCapId) ∧
      s'.writtenFrames = max (s.writtenFrames + 1)
        (max 1 ⌊(s.t + env.captureDur s.nextCapId - env.startedAt) * env.fps / 1000⌋).toNat ∧
      (max 1 ⌊(s.t + env.captureDur s.nextCapId - env.startedAt) * env.fps / 1000⌋).toNat
        ≤ s'.writtenFrames ∧
      s'.events = s.events ++ [RecEv.capture s.nextCapId] ++
        List.replicate (s'.writtenFrames - s.writtenFrames) (RecEv.write s.nextCapId) ∧
      s'.t = s.t + env.captureDur s.nextCapId +
        max 0 (((s'.writtenFrames : ℚ) + 1) * (1000 / env.fps) -
          (s.t + env.captureDur s.nextCapId - env.startedAt)) := by
  obtain ⟨s', h1, h2, h3, h4, _⟩ := captureAndWriteFrame_eq env s hfail
  exact ⟨s', h1, h2, h2 ▸ Nat.le_max_right _ _, h3, by rw [h4]; rfl⟩

/-- Witness for C5: the first capture of the two-slide session succeeds. -/
theorem captureAndWriteFrame_paces_frames_witness :
    (captureAndWriteFrame twoSlideEnv (initRecState 0)).2 = .ok 0 := by
  obtain ⟨s', h1, _⟩ := captureAndWriteFrame_paces_frames twoSlideEnv (initRecState 0) rfl
  rw [h1]
  rfl

/-! ## C4: transition wait -/

theorem transitionWaitLoop_spec (env : RecEnv) (hcap : ∀ n, env.captureFail n = false) :
    ∀ (fuel : Nat) (s : RecState) (deadline : ℚ) (previousStamp : String)
      (s' : RecState) (res : Except String Bool),
      transitionWaitLoop env fuel s deadline previousStamp = some (s', res) →
      s.stepReads ≤ s'.stepReads ∧
      ((res = .ok false ∧ deadline ≤ s'.t ∧
          (∀ n, s.stepReads ≤ n → n < s'.stepReads →
            getStepKey (env.stepInfoSeq n) = previousStamp)) ∨
       (res = .ok true ∧ s.stepReads < s'.stepReads ∧
          getStepKey (env.stepInfoSeq (s'.stepReads - 1)) ≠ previousStamp ∧
          (∀ n, s.stepReads ≤ n → n < s'.stepReads - 1 →
            getStepKey (env.stepInfoSeq n) = previousStamp))) := by
  intro fuel
  induction fuel with
  | zero =>
    intro s deadline p s' res h
    simp [transitionWaitLoop] at h
  | succ k ih =>
    intro s deadline p s' res h
    rw [transitionWaitLoop] at h
    by_cases ht : s.t < deadline
    · rw [if_pos ht] at h
      obtain ⟨s1, h1, _, _, _, _, _, hr1, _, _, _⟩ := captureAndWriteFrame_eq env s (hcap _)
      rw [h1] at h
      dsimp only [getStepInfoOp] at h
      by_cases hkey : getStepKey (env.stepInfoSeq s1.stepReads) ≠ p
      · rw [if_pos hkey] at h
        obtain ⟨rfl, rfl⟩ : { s1 with stepReads := s1.stepReads + 1 } = s' ∧ .ok true = res := by
          constructor <;> [exact congrArg Prod.fst (Option.some_inj.1 h);
            exact congrArg Prod.snd (Option.some_inj.1 h)]
        refine ⟨by simp [hr1], Or.inr ⟨rfl, by simp [hr1], ?_, ?_⟩⟩
        · simpa [hr1] using hkey
        · intro n hn1 hn2
          simp [hr1] at hn1 hn2
          omega
      · rw [if_neg hkey] at h
        push_neg at hkey
        obtain ⟨hle, hdisj⟩ := ih _ deadline p s' res h
        have hreads : s1.stepReads = s.stepReads := hr1
        refine ⟨by simp [hreads] at hle ⊢; omega, ?_⟩
        rcases hdisj with ⟨hres, hdead, hwin⟩ | ⟨hres, hlt, hne, hwin⟩
        · refine Or.inl ⟨hres, hdead, ?_⟩
          intro n hn1 hn2
          rcases Nat.eq_or_lt_of_le hn1 with rfl | hgt
          · simpa [hreads] using hkey
          · exact hwin n (by simp [hreads]; omega) hn2
        · refine Or.inr ⟨hres, by simp [hreads] at hlt ⊢; omega, hne, ?_⟩
          intro n hn1 hn2
          rcases Nat.eq_or_lt_of_le hn1 with rfl | hgt
          · simpa [hreads] using hkey
          · exact hwin n (by simp [hreads]; omega) hn2
    · rw [if_neg ht] at h
      obtain ⟨rfl, rfl⟩ : s = s' ∧ .ok false = res := by
        constructor <;> [exact congrArg Prod.fst (Option.some_inj.1 h);
          exact congrArg Prod.snd (Option.some_inj.1 h)]
      exact ⟨le_refl _, Or.inl ⟨rfl, not_lt.1 ht, fun n h1 h2 => absurd h2 (by omega)⟩⟩

/-- C4: After `nextStep()` the recorder keeps capturing frames until the
observed step key differs from the saved key or the deadline
`min(10000, max(2000, timeout))` ms elapses; every key observed before the
outcome equals the saved key, and a deadline hit fails with an error whose
message contains `Failed to advance from step <key>`. -/
theorem transitionWait_spec (env : RecEnv) (fuel : Nat) (s : RecState)
    (previousStamp : String) (s' : RecState) (res : Option String)
    (hcap : ∀ n, env.captureFail n = false)
    (h : transitionWait env fuel s previousStamp = some (s', res)) :
    (∀ e, res = some e →
      e = "[slidev] Failed to advance from step " ++ previousStamp ∧
      (∃ p q, e = p ++ ("Failed to advance from step " ++ previousStamp) ++ q) ∧
      s.t + min 10000 (max 2000 env.timeout) ≤ s'.t ∧
      (∀ n, s.stepReads ≤ n → n < s'.stepReads →
        getStepKey (env.stepInfoSeq n) = previousStamp)) ∧
    (res = none → s.stepReads < s'.stepReads ∧
      getStepKey (env.stepInfoSeq (s'.stepReads - 1)) ≠ previousStamp ∧
      (∀ n, s.stepReads ≤ n → n < s'.stepReads - 1 →
        getStepKey (env.stepInfoSeq n) = previousStamp)) := by
  rw [transitionWait] at h
  cases hloop : transitionWaitLoop env fuel s
      (s.t + min 10000 (max 2000 env.timeout)) previousStamp with
  | none => rw [hloop] at h; simp at h
  | some pr =>
    obtain ⟨s1, res1⟩ := pr
    rw [hloop] at h
    obtain ⟨hle, hdisj⟩ := transitionWaitLoop_spec env hcap fuel s _ previousStamp s1 res1 hloop
    rcases hdisj with ⟨hres, hdead, hwin⟩ | ⟨hres, hlt, hne, hwin⟩
    · subst hres
      dsimp only at h
      rw [if_neg (by simp)] at h
      obtain ⟨rfl, rfl⟩ : s1 = s' ∧
          (some ("[slidev] Failed to advance from step " ++ previousStamp) : Option String)
            = res := by
        constructor <;> [exact congrArg Prod.fst (Option.some_inj.1 h);
          exact congrArg Prod.snd (Option.some_inj.1 h)]
      refine ⟨?_, by intro hn; simp at hn⟩
      intro e he
      obtain rfl : "[slidev] Failed to advance from step " ++ previousStamp = e :=
        Option.some_inj.1 he
      refine ⟨rfl, ⟨"[slidev] ", "", ?_⟩, hdead, hwin⟩
      rw [String.append_empty, ← String.append_assoc]
      rfl
    · subst hres
      dsimp only at h
      rw [if_pos rfl] at h
      obtain ⟨rfl, rfl⟩ : s1 = s' ∧ (none : Option String) = res := by
        constructor <;> [exact congrArg Prod.fst (Option.some_inj.1 h);
          exact congrArg Prod.snd (Option.some_inj.1 h)]
      exact ⟨fun e he => by simp at he, fun _ => ⟨hlt, hne, hwin⟩⟩

/-- Concrete transition wait in `keyChangeEnv`: the key changes on the first
read, so one frame is captured, one step info is read, and the wait
succeeds. -/
theorem transitionWait_keyChange_run :
    (transitionWait keyChangeEnv 2 (initRecState 0) "1-0").map
      (fun p => (p.1.stepReads, p.2)) = some (1, none) := by
  simp +decide [transitionWait, transitionWaitLoop, captureAndWriteFrame, captureFrame,
    catchUpFrames, catchUpLoop, writeFrame, emitEv, getStepInfoOp, getStepKey,
    keyChangeEnv, cleanRunEnv, encoderFailEnv, initRecState, RecEnv.frameInterval,
    min_def, max_def]

/-- Witness for C4: in `keyChangeEnv` the successful wait's last observed key
differs from the saved key `1-0`, and the read count strictly grew. -/
theorem transitionWait_spec_witness :
    getStepKey (keyChangeEnv.stepInfoSeq 0) ≠ "1-0" ∧
    (initRecState 0).stepReads < 1 := by
  obtain ⟨⟨s', res⟩, h, hpair⟩ :
      ∃ p, transitionWait keyChangeEnv 2 (initRecState 0) "1-0" = some p ∧
        (p.1.stepReads, p.2) = (1, none) := by
    have hts := transitionWait_keyChange_run
    rcases hx : transitionWait keyChangeEnv 2 (initRecState 0) "1-0" with _ | p
    · rw [hx] at hts
      exact absurd hts (by simp)
    · exact ⟨p, rfl, by rw [hx] at hts; simpa using hts⟩
  obtain ⟨hr, hn⟩ : s'.stepReads = 1 ∧ res = none := by
    constructor <;> [exact congrArg Prod.fst hpair; exact congrArg Prod.snd hpair]
  subst hn
  have hmain := (transitionWait_spec keyChangeEnv 2 (initRecState 0) "1-0" s' none
    (fun n => rfl) h).2 rfl
  refine ⟨?_, ?_⟩
  · have := hmain.2.1
    rwa [hr] at this
  · rw [← hr]; exact hmain.1

/-- `nextStepEv` counting distributes over trace concatenation. -/
theorem nextStepCount_append (a b : List RecEv) :
    nextStepCount (a ++ b) = nextStepCount a + nextStepCount b := by
  simp [nextStepCount, List.countP_append]

/-- Duplicated frames are not step advances. -/
theorem nextStepCount_replicate_write (n i : Nat) :
    nextStepCount (List.replicate n (RecEv.write i)) = 0 := by
  induction n with
  | zero => rfl
  | succ m ih => simp [List.replicate_succ, nextStepCount, List.countP_cons]

/-- A successful `captureAndWriteFrame` never advances the deck: the nextStep
counter, the `nextStepEv` trace events and the step-read counter are
untouched. -/
theorem captureAndWriteFrame_ok_preserves (env : RecEnv) (s s1 : RecState) (k : Nat)
    (h : captureAndWriteFrame env s = (s1, .ok k)) :
    s1.nextSteps = s.nextSteps ∧ nextStepCount s1.events = nextStepCount s.events ∧
      s1.stepReads = s.stepReads := by
  cases hfail : env.captureFail s.nextCapId with
  | true =>
    rw [captureAndWriteFrame, captureFrame_fail env s hfail] at h
    simp at h
  | false =>
    obtain ⟨s', heq, hwf, hev, ht, hn, hl, hsr, hns, hst, hbu⟩ :=
      captureAndWriteFrame_eq env s hfail
    rw [heq] at h
    obtain ⟨h1, -⟩ : s' = s1 ∧ _ := Prod.mk.injEq .. ▸ h
    subst h1
    refine ⟨hns, ?_, hsr⟩
    rw [hev, nextStepCount_append, nextStepCount_append, nextStepCount_replicate_write]
    simp [nextStepCount, List.countP_cons]

/-- A clean run of the `captureForDuration` loop never advances the deck. -/
theorem cfdLoop_preserves (env : RecEnv) :
    ∀ (fuel : Nat) (s : RecState) (d : ℚ) (s' : RecState),
      cfdLoop env fuel s d = some (s', none) →
      s'.nextSteps = s.nextSteps ∧ nextStepCount s'.events = nextStepCount s.events ∧
        s'.stepReads = s.stepReads
  | 0, s, d, s' => by intro h; simp [cfdLoop] at h
  | fuel + 1, s, d, s' => by
    intro h
    rw [cfdLoop] at h
    split at h
    · cases hc : captureAndWriteFrame env s with
      | mk s1 r =>
        rw [hc] at h
        cases r with
        | error e => simp at h
        | ok k =>
          dsimp only at h
          obtain ⟨h1, h2, h3⟩ := cfdLoop_preserves env fuel s1 d s' h
          obtain ⟨g1, g2, g3⟩ := captureAndWriteFrame_ok_preserves env s s1 k hc
          exact ⟨h1.trans g1, h2.trans g2, h3.trans g3⟩
    · obtain ⟨h1, -⟩ : _ ∧ _ := Prod.mk.injEq .. ▸ (Option.some_inj.1 h)
      subst h1
      exact ⟨rfl, rfl, rfl⟩

/-- `waitForStepSettled` only spends time: no events, no advance, no step
read. -/
theorem waitForStepSettledOp_fields (env : RecEnv) (s : RecState) :
    (waitForStepSettledOp env s).nextSteps = s.nextSteps ∧
    (waitForStepSettledOp env s).events = s.events ∧
    (waitForStepSettledOp env s).stepReads = s.stepReads := by
  rw [waitForStepSettledOp]
  dsimp only [getBudgetOp]
  split <;> exact ⟨rfl, rfl, rfl⟩

/-- A clean `captureForDuration` dwell never advances the deck. -/
theorem captureForDuration_preserves (env : RecEnv) (fuel : Nat) (s : RecState)
    (d : ℚ) (s' : RecState) (h : captureForDuration env fuel s d = some (s', none)) :
    s'.nextSteps = s.nextSteps ∧ nextStepCount s'.events = nextStepCount s.events ∧
      s'.stepReads = s.stepReads := by
  rw [captureForDuration] at h
  split at h
  · obtain ⟨h1, -⟩ : _ ∧ _ := Prod.mk.injEq .. ▸ (Option.some_inj.1 h)
    subst h1; exact ⟨rfl, rfl, rfl⟩
  · exact cfdLoop_preserves env fuel s _ s' h

/-- C10: With neither bridge shape on the page, `getStepInfo` coerces every
missing field to its default and returns `{no: 0, clicks: 0, clicksTotal: 0,
hasNext: false}`; a main-loop iteration whose dwell completes then exits
cleanly right after that first dwell — no missing-bridge error was raised
and the deck was never advanced. -/
theorem pageGetStepInfo_missing_bridge (w : PageWorld) (env : RecEnv)
    (fuel : Nat) (s s2 : RecState)
    (hexp : w.slidevExport.bind SlidevExportBridge.getStepInfo = none)
    (hnav : w.slidev.bind SlidevContext.nav = none)
    (hstep : ∀ n, env.stepInfoSeq n = pageGetStepInfo w)
    (hdwell : captureForDuration env (fuel + 1) (waitForStepSettledOp env s)
        (env.interval * env.speedup) = some (s2, none)) :
    pageGetStepInfo w = { no := 0, clicks := 0, clicksTotal := 0, hasNext := false } ∧
    mainLoop env (fuel + 1) s = some ({ s2 with stepReads := s2.stepReads + 1 }, none) ∧
    ({ s2 with stepReads := s2.stepReads + 1 } : RecState).nextSteps = s.nextSteps ∧
    nextStepCount ({ s2 with stepReads := s2.stepReads + 1 } : RecState).events
      = nextStepCount s.events := by
  have hfall : pageGetStepInfo w = { no := 0, clicks := 0, clicksTotal := 0, hasNext := false } := by
    rw [pageGetStepInfo]
    cases hE : w.slidevExport with
    | none => simp [navFallbackStepInfo, hnav, readNumField, readBoolField]
    | some bridge =>
      rw [hE] at hexp
      simp only [Option.some_bind] at hexp
      dsimp only
      rw [hexp]
      simp [navFallbackStepInfo, hnav, readNumField, readBoolField]
  refine ⟨hfall, ?_, ?_, ?_⟩
  · rw [mainLoop]
    dsimp only
    rw [hdwell]
    dsimp only [getStepInfoOp]
    rw [hstep, hfall]
    simp
  · obtain ⟨h1, -, -⟩ := captureForDuration_preserves env (fuel + 1) _ _ s2 hdwell
    obtain ⟨g1, -, -⟩ := waitForStepSettledOp_fields env s
    exact h1.trans g1
  · obtain ⟨-, h2, -⟩ := captureForDuration_preserves env (fuel + 1) _ _ s2 hdwell
    obtain ⟨-, g2, -⟩ := waitForStepSettledOp_fields env s
    dsimp only at h2 ⊢
    rw [h2, g2]

/-- Witness for C10: the empty page world satisfies both missing-bridge
hypotheses, and the coerced step info is the all-defaults record. -/
theorem pageGetStepInfo_missing_bridge_witness :
    emptyPageWorld.slidevExport.bind SlidevExportBridge.getStepInfo = none ∧
    pageGetStepInfo emptyPageWorld = { no := 0, clicks := 0, clicksTotal := 0, hasNext := false } := by
  have hdwell : captureForDuration cleanRunEnv 1 (waitForStepSettledOp cleanRunEnv (initRecState 0))
      (cleanRunEnv.interval * cleanRunEnv.speedup) =
      some ({ t := 0, writtenFrames := 0, nextCapId := 0, lastCap := 0,
              stepReads := 0, nextSteps := 0, settles := 1, budgets := 1,
              events := [] }, none) := by
    simp +decide [captureForDuration, waitForStepSettledOp, getBudgetOp,
      cleanRunEnv, encoderFailEnv, initRecState]
  exact ⟨rfl, (pageGetStepInfo_missing_bridge emptyPageWorld cleanRunEnv 0 (initRecState 0)
    { t := 0, writtenFrames := 0, nextCapId := 0, lastCap := 0,
      stepReads := 0, nextSteps := 0, settles := 1, budgets := 1, events := [] }
    rfl rfl (fun n => rfl) hdwell).1⟩

/-- `endStdin` counting distributes over trace concatenation. -/
theorem endCount_append (a b : List RecEv) :
    endCount (a ++ b) = endCount a + endCount b := by
  simp [endCount, List.countP_append]

/-- Duplicated frames never close stdin. -/
theorem endCount_replicate_write (n i : Nat) :
    endCount (List.replicate n (RecEv.write i)) = 0 := by
  induction n with
  | zero => rfl
  | succ m ih => simp [List.replicate_succ, endCount, List.countP_cons]

/-- A successful scan of a prefix lets the scan of a concatenation resume
from the prefix's final counters. -/
theorem scanTrace_append :
    ∀ (a b : List RecEv) (c w : Nat) (res : Nat × Nat),
      scanTrace a c w = some res →
      scanTrace (a ++ b) c w = scanTrace b res.1 res.2
  | [], b, c, w, res => by
    intro h
    obtain rfl : (c, w) = res := Option.some_inj.1 h
    rfl
  | RecEv.capture i :: r, b, c, w, res => by
    intro h
    rw [scanTrace] at h
    rw [List.cons_append, scanTrace]
    split at h
    · rw [if_pos (by assumption)]
      exact scanTrace_append r b (c + 1) w res h
    · exact absurd h (by simp)
  | RecEv.write i :: r, b, c, w, res => by
    intro h
    rw [scanTrace] at h
    rw [List.cons_append, scanTrace]
    split at h
    · rw [if_pos (by assumption)]
      exact scanTrace_append r b c i res h
    · exact absurd h (by simp)
  | RecEv.nextStepEv :: r, b, c, w, res => by
    intro h
    rw [scanTrace] at h
    rw [List.cons_append, scanTrace]
    exact scanTrace_append r b c w res h
  | RecEv.endStdin :: r, b, c, w, res => by
    intro h
    rw [scanTrace] at h
    rw [List.cons_append, scanTrace]
    exact scanTrace_append r b c w res h

/-- Scanning a run of duplicated writes of an already-captured frame
succeeds and ends on that frame id. -/
theorem scanTrace_replicate_write (i : Nat) :
    ∀ (k c w : Nat), i < c → w ≤ i →
      scanTrace (List.replicate k (RecEv.write i)) c w =
        some (c, if k = 0 then w else i)
  | 0, c, w => by intro _ _; rfl
  | k + 1, c, w => by
    intro hc hw
    rw [List.replicate_succ, scanTrace, if_pos ⟨hc, hw⟩,
      scanTrace_replicate_write i k c i hc (le_refl i)]
    simp

/-- A scannable trace has monotonically nondecreasing write ids, all at
least the incoming last-write id. -/
theorem scanTrace_chain :
    ∀ (evs : List RecEv) (c w : Nat) (res : Nat × Nat),
      scanTrace evs c w = some res →
      List.Chain' (· ≤ ·) (writeIds evs) ∧ ∀ i ∈ writeIds evs, w ≤ i
  | [], c, w, res => by intro _; simp [writeIds]
  | RecEv.capture i :: r, c, w, res => by
    intro h
    rw [scanTrace] at h
    split at h
    · have := scanTrace_chain r (c + 1) w res h
      simpa [writeIds] using this
    · exact absurd h (by simp)
  | RecEv.write i :: r, c, w, res => by
    intro h
    rw [scanTrace] at h
    split at h
    · obtain ⟨hchain, hall⟩ := scanTrace_chain r c i res h
      have hwi : w ≤ i := by
        rename_i hcond
        exact hcond.2
      refine ⟨?_, ?_⟩
      · rw [writeIds]
        simp only [List.filterMap_cons]
        rw [List.chain'_cons']
        exact ⟨fun y hy => hall y (by
          rw [writeIds] at hall ⊢
          exact List.mem_of_mem_head? hy), by
            rw [writeIds] at hchain
            exact hchain⟩
      · intro j hj
        rw [writeIds] at hj
        simp only [List.filterMap_cons] at hj
        rcases List.mem_cons.1 hj with rfl | hj2
        · exact hwi
        · exact le_trans hwi (hall j (by rw [writeIds]; exact hj2))
    · exact absurd h (by simp)
  | RecEv.nextStepEv :: r, c, w, res => by
    intro h
    rw [scanTrace] at h
    have := scanTrace_chain r c w res h
    simpa [writeIds] using this
  | RecEv.endStdin :: r, c, w, res => by
    intro h
    rw [scanTrace] at h
    have := scanTrace_chain r c w res h
    simpa [writeIds] using this

/-- A failing `captureAndWriteFrame` leaves the state untouched. -/
theorem captureAndWriteFrame_err_state (env : RecEnv) (s s1 : RecState) (e : String)
    (h : captureAndWriteFrame env s = (s1, .error e)) : s1 = s := by
  cases hfail : env.captureFail s.nextCapId with
  | true =>
    rw [captureAndWriteFrame, captureFrame_fail env s hfail] at h
    exact (Prod.mk.injEq .. ▸ h).1.symm ▸ rfl
  | false =>
    obtain ⟨s', heq, -⟩ := captureAndWriteFrame_eq env s hfail
    rw [heq] at h
    exact absurd (Prod.mk.injEq .. ▸ h).2 (by simp)

/-- A successful `captureAndWriteFrame` preserves the trace invariant and
never closes stdin. -/
theorem captureAndWriteFrame_inv (env : RecEnv) (s s1 : RecState) (k : Nat)
    (h : captureAndWriteFrame env s = (s1, .ok k)) (hinv : TraceInv s) :
    TraceInv s1 ∧ endCount s1.events = endCount s.events := by
  cases hfail : env.captureFail s.nextCapId with
  | true =>
    rw [captureAndWriteFrame, captureFrame_fail env s hfail] at h
    simp at h
  | false =>
    obtain ⟨s', heq, hwf, hev, ht, hn, hl, hsr, hns, hst, hbu⟩ :=
      captureAndWriteFrame_eq env s hfail
    rw [heq] at h
    obtain ⟨rfl, -⟩ : s' = s1 ∧ _ := Prod.mk.injEq .. ▸ h
    obtain ⟨w, hscan, hwle, hdisj⟩ := hinv
    have hwi : w ≤ s.nextCapId := by
      rcases hdisj with hlt | ⟨h0, h0'⟩
      · exact le_trans hwle (Nat.le_of_lt hlt)
      · omega
    have hrep : 1 ≤ s'.writtenFrames - s.writtenFrames := by
      rw [hwf]
      have := Nat.le_max_left (s.writtenFrames + 1)
        ((1 ⊔ ⌊(s.t + env.captureDur s.nextCapId - env.startedAt) * env.fps / 1000⌋).toNat)
      omega
    constructor
    · refine ⟨s.nextCapId, ?_, ?_, ?_⟩
      · rw [hev, List.append_assoc,
          scanTrace_append s.events _ 0 0 (s.nextCapId, w) hscan]
        dsimp only
        rw [List.cons_append, scanTrace, if_pos rfl, List.nil_append,
          scanTrace_replicate_write s.nextCapId _ _ _ (Nat.lt_succ_self _) hwi,
          if_neg (by omega), hn]
      · rw [hl]
      · rw [hn, hl]; omega
    · rw [hev, endCount_append, endCount_append, endCount_replicate_write]
      simp [endCount, List.countP_cons]

/-- The `captureForDuration` loop preserves the trace invariant and never
closes stdin. -/
theorem cfdLoop_inv (env : RecEnv) :
    ∀ (fuel : Nat) (s : RecState) (d : ℚ) (s' : RecState) (r : Option String),
      cfdLoop env fuel s d = some (s', r) → TraceInv s →
      TraceInv s' ∧ endCount s'.events = endCount s.events
  | 0, s, d, s', r => by intro h _; simp [cfdLoop] at h
  | fuel + 1, s, d, s', r => by
    intro h hinv
    rw [cfdLoop] at h
    split at h
    · cases hc : captureAndWriteFrame env s with
      | mk s1 rr =>
        rw [hc] at h
        cases rr with
        | error e =>
          obtain ⟨rfl, -⟩ : s1 = s' ∧ _ := Prod.mk.injEq .. ▸ (Option.some_inj.1 h)
          obtain rfl := captureAndWriteFrame_err_state env s s1 e hc
          exact ⟨hinv, rfl⟩
        | ok k =>
          dsimp only at h
          obtain ⟨hinv1, hend1⟩ := captureAndWriteFrame_inv env s s1 k hc hinv
          obtain ⟨hinv2, hend2⟩ := cfdLoop_inv env fuel s1 d s' r h hinv1
          exact ⟨hinv2, hend2.trans hend1⟩
    · obtain ⟨rfl, -⟩ : s = s' ∧ _ := Prod.mk.injEq .. ▸ (Option.some_inj.1 h)
      exact ⟨hinv, rfl⟩

/-- `captureForDuration` preserves the trace invariant and never closes
stdin. -/
theorem captureForDuration_inv (env : RecEnv) (fuel : Nat) (s : RecState)
    (d : ℚ) (s' : RecState) (r : Option String)
    (h : captureForDuration env fuel s d = some (s', r)) (hinv : TraceInv s) :
    TraceInv s' ∧ endCount s'.events = endCount s.events := by
  rw [captureForDuration] at h
  split at h
  · obtain ⟨rfl, -⟩ : s = s' ∧ _ := Prod.mk.injEq .. ▸ (Option.some_inj.1 h)
    exact ⟨hinv, rfl⟩
  · exact cfdLoop_inv env fuel s _ s' r h hinv

/-- `waitForStepSettled` only changes the clock and the budget and settle
counters. -/
theorem waitForStepSettledOp_eq (env : RecEnv) (s : RecState) :
    ∃ q, waitForStepSettledOp env s =
      { s with t := q, budgets := s.budgets + 1, settles := s.settles + 1 } := by
  rw [waitForStepSettledOp]
  dsimp only [getBudgetOp]
  split <;> exact ⟨_, rfl⟩

/-- `nextStep` preserves the trace invariant and never closes stdin. -/
theorem nextStepOp_inv (env : RecEnv) (s : RecState) (hinv : TraceInv s) :
    TraceInv (nextStepOp env s).1 ∧
      endCount (nextStepOp env s).1.events = endCount s.events := by
  obtain ⟨w, hscan, hwle, hdisj⟩ := hinv
  refine ⟨⟨w, ?_, hwle, hdisj⟩, ?_⟩
  · rw [nextStepOp]
    dsimp only
    rw [scanTrace_append s.events _ 0 0 (s.nextCapId, w) hscan]
    rfl
  · rw [nextStepOp]
    dsimp only
    rw [endCount_append]
    simp [endCount, List.countP_cons]

/-- The transition-wait loop preserves the trace invariant and never closes
stdin. -/
theorem transitionWaitLoop_inv (env : RecEnv) :
    ∀ (fuel : Nat) (s : RecState) (d : ℚ) (p : String) (s' : RecState)
      (r : Except String Bool),
      transitionWaitLoop env fuel s d p = some (s', r) → TraceInv s →
      TraceInv s' ∧ endCount s'.events = endCount s.events
  | 0, s, d, p, s', r => by intro h _; simp [transitionWaitLoop] at h
  | fuel + 1, s, d, p, s', r => by
    intro h hinv
    rw [transitionWaitLoop] at h
    split at h
    · cases hc : captureAndWriteFrame env s with
      | mk s1 rr =>
        rw [hc] at h
        cases rr with
        | error e =>
          obtain ⟨rfl, -⟩ : s1 = s' ∧ _ := Prod.mk.injEq .. ▸ (Option.some_inj.1 h)
          obtain rfl := captureAndWriteFrame_err_state env s s1 e hc
          exact ⟨hinv, rfl⟩
        | ok k =>
          dsimp only [getStepInfoOp] at h
          obtain ⟨hinv1, hend1⟩ := captureAndWriteFrame_inv env s s1 k hc hinv
          have hinv2 : TraceInv ({ s1 with stepReads := s1.stepReads + 1 } : RecState) := hinv1
          split at h
          · obtain ⟨rfl, -⟩ : _ ∧ _ := Prod.mk.injEq .. ▸ (Option.some_inj.1 h)
            exact ⟨hinv2, hend1⟩
          · obtain ⟨hinv3, hend3⟩ := transitionWaitLoop_inv env fuel _ d p s' r h hinv2
            exact ⟨hinv3, hend3.trans hend1⟩
    · obtain ⟨rfl, -⟩ : s = s' ∧ _ := Prod.mk.injEq .. ▸ (Option.some_inj.1 h)
      exact ⟨hinv, rfl⟩

/-- The transition wait preserves the trace invariant and never closes
stdin. -/
theorem transitionWait_inv (env : RecEnv) (fuel : Nat) (s : RecState) (p : String)
    (s' : RecState) (r : Option String)
    (h : transitionWait env fuel s p = some (s', r)) (hinv : TraceInv s) :
    TraceInv s' ∧ endCount s'.events = endCount s.events := by
  rw [transitionWait] at h
  cases hloop : transitionWaitLoop env fuel s (s.t + min 10000 (max 2000 env.timeout)) p with
  | none => rw [hloop] at h; simp at h
  | some pr =>
    obtain ⟨s1, r1⟩ := pr
    rw [hloop] at h
    obtain ⟨hinv1, hend1⟩ := transitionWaitLoop_inv env fuel s _ p s1 r1 hloop hinv
    cases r1 with
    | error e =>
      obtain ⟨rfl, -⟩ : s1 = s' ∧ _ := Prod.mk.injEq .. ▸ (Option.some_inj.1 h)
      exact ⟨hinv1, hend1⟩
    | ok changed =>
      dsimp only at h
      split at h <;>
      · obtain ⟨rfl, -⟩ : s1 = s' ∧ _ := Prod.mk.injEq .. ▸ (Option.some_inj.1 h)
        exact ⟨hinv1, hend1⟩

/-- The main capture loop preserves the trace invariant and never closes
stdin. -/
theorem mainLoop_inv (env : RecEnv) :
    ∀ (fuel : Nat) (s : RecState) (s' : RecState) (r : Option String),
      mainLoop env fuel s = some (s', r) → TraceInv s →
      TraceInv s' ∧ endCount s'.events = endCount s.events
  | 0, s, s', r => by intro h _; simp [mainLoop] at h
  | fuel + 1, s, s', r => by
    intro h hinv
    rw [mainLoop] at h
    obtain ⟨q, hw⟩ := waitForStepSettledOp_eq env s
    rw [hw] at h
    have hinv1 : TraceInv ({ s with t := q, budgets := s.budgets + 1, settles := s.settles + 1 } : RecState) := hinv
    cases hcfd : captureForDuration env (fuel + 1)
        { s with t := q, budgets := s.budgets + 1, settles := s.settles + 1 }
        (env.interval * env.speedup) with
    | none => rw [hcfd] at h; simp at h
    | some pr =>
      obtain ⟨s2, r2⟩ := pr
      rw [hcfd] at h
      obtain ⟨hinv2, hend2⟩ := captureForDuration_inv env (fuel + 1) _ _ s2 r2 hcfd hinv1
      cases r2 with
      | some e =>
        obtain ⟨rfl, -⟩ : s2 = s' ∧ _ := Prod.mk.injEq .. ▸ (Option.some_inj.1 h)
        exact ⟨hinv2, hend2⟩
      | none =>
        dsimp only [getStepInfoOp] at h
        have hinv3 : TraceInv ({ s2 with stepReads := s2.stepReads + 1 } : RecState) := hinv2
        split at h
        · obtain ⟨rfl, -⟩ : _ ∧ _ := Prod.mk.injEq .. ▸ (Option.some_inj.1 h)
          exact ⟨hinv3, hend2⟩
        · obtain ⟨hinv4, hend4⟩ := nextStepOp_inv env
            ({ s2 with stepReads := s2.stepReads + 1 } : RecState) hinv3
          split at h
          · obtain ⟨rfl, -⟩ : _ ∧ _ := Prod.mk.injEq .. ▸ (Option.some_inj.1 h)
            exact ⟨hinv4, hend4.trans hend2⟩
          · cases htw : transitionWait env (fuel + 1)
                (nextStepOp env ({ s2 with stepReads := s2.stepReads + 1 } : RecState)).1
                (getStepKey (env.stepInfoSeq s2.stepReads)) with
            | none => rw [htw] at h; simp at h
            | some pr2 =>
              obtain ⟨s5, r5⟩ := pr2
              rw [htw] at h
              obtain ⟨hinv5, hend5⟩ := transitionWait_inv env (fuel + 1) _ _ s5 r5 htw hinv4
              cases r5 with
              | some e =>
                obtain ⟨rfl, -⟩ : s5 = s' ∧ _ := Prod.mk.injEq .. ▸ (Option.some_inj.1 h)
                exact ⟨hinv5, (hend5.trans hend4).trans hend2⟩
              | none =>
                dsimp only [getBudgetOp] at h
                have hinv6 : TraceInv ({ s5 with budgets := s5.budgets + 1 } : RecState) := hinv5
                cases hcfd2 : captureForDuration env (fuel + 1)
                    ({ s5 with budgets := s5.budgets + 1 } : RecState)
                    (env.budget s5.budgets) with
                | none => rw [hcfd2] at h; simp at h
                | some pr3 =>
                  obtain ⟨s7, r7⟩ := pr3
                  rw [hcfd2] at h
                  obtain ⟨hinv7, hend7⟩ :=
                    captureForDuration_inv env (fuel + 1) _ _ s7 r7 hcfd2 hinv6
                  cases r7 with
                  | some e =>
                    obtain ⟨rfl, -⟩ : s7 = s' ∧ _ := Prod.mk.injEq .. ▸ (Option.some_inj.1 h)
                    exact ⟨hinv7, ((hend7.trans hend5).trans hend4).trans hend2⟩
                  | none =>
                    obtain ⟨hinv8, hend8⟩ := mainLoop_inv env fuel s7 s' r h hinv7
                    exact ⟨hinv8,
                      (((hend8.trans hend7).trans hend5).trans hend4).trans hend2⟩

/-- Closing stdin preserves the trace invariant and bumps the `endStdin`
count by one. -/
theorem emitEnd_inv (s : RecState) (hinv : TraceInv s) :
    TraceInv (emitEv s .endStdin) ∧
      endCount (emitEv s .endStdin).events = endCount s.events + 1 := by
  obtain ⟨w, hscan, hwle, hdisj⟩ := hinv
  refine ⟨⟨w, ?_, hwle, hdisj⟩, ?_⟩
  · rw [emitEv]
    dsimp only
    rw [scanTrace_append s.events _ 0 0 (s.nextCapId, w) hscan]
    rfl
  · rw [emitEv]
    dsimp only
    rw [endCount_append]
    simp [endCount, List.countP_cons]

/-- The inline screenshot-write-catchup sequence of the `try` block
preserves the trace invariant and never closes stdin. -/
theorem inlineCaptureWrite_inv (env : RecEnv) (s sa : RecState) (f : Nat)
    (hcf : captureFrame env s = (sa, .ok f)) (hinv : TraceInv s) :
    TraceInv (catchUpFrames env
        { writeFrame sa f with writtenFrames := (writeFrame sa f).writtenFrames + 1 } f) ∧
      endCount (catchUpFrames env
        { writeFrame sa f with writtenFrames := (writeFrame sa f).writtenFrames + 1 } f).events
        = endCount s.events := by
  cases hfail : env.captureFail s.nextCapId with
  | true =>
    rw [captureFrame_fail env s hfail] at hcf
    exact absurd (Prod.mk.injEq .. ▸ hcf).2 (by simp)
  | false =>
    rw [captureFrame_ok env s hfail] at hcf
    obtain ⟨hsa, hf⟩ : _ ∧ _ := Prod.mk.injEq .. ▸ hcf
    obtain rfl : s.nextCapId = f := by exact Except.ok.inj hf
    obtain ⟨w, hscan, hwle, hdisj⟩ := hinv
    have hwi : w ≤ s.nextCapId := by
      rcases hdisj with hlt | ⟨h0, h0'⟩
      · exact le_trans hwle (Nat.le_of_lt hlt)
      · omega
    subst hsa
    rw [writeFrame, emitEv, catchUpFrames]
    dsimp only
    rw [catchUpLoop_spec _ _ _ _ rfl]
    constructor
    · refine ⟨s.nextCapId, ?_, ?_, ?_⟩
      · dsimp only
        rw [List.append_assoc, List.append_assoc,
          scanTrace_append s.events _ 0 0 (s.nextCapId, w) hscan]
        dsimp only
        rw [List.singleton_append, scanTrace, if_pos rfl, List.singleton_append, scanTrace,
          if_pos ⟨Nat.lt_succ_self _, hwi⟩,
          scanTrace_replicate_write s.nextCapId _ _ _ (Nat.lt_succ_self _) (le_refl _)]
        split <;> rfl
      · dsimp only
        exact le_refl _
      · dsimp only
        exact Or.inl (Nat.lt_succ_self _)
    · dsimp only
      rw [List.append_assoc, List.append_assoc, endCount_append, endCount_append,
        endCount_append, endCount_replicate_write]
      simp [endCount, List.countP_cons]

/-- A failing screenshot leaves the state untouched. -/
theorem captureFrame_err_state (env : RecEnv) (s s1 : RecState) (e : String)
    (h : captureFrame env s = (s1, .error e)) : s1 = s := by
  cases hfail : env.captureFail s.nextCapId with
  | true =>
    rw [captureFrame_fail env s hfail] at h
    exact (Prod.mk.injEq .. ▸ h).1.symm ▸ rfl
  | false =>
    rw [captureFrame_ok env s hfail] at h
    exact absurd (Prod.mk.injEq .. ▸ h).2 (by simp)

/-- The `try` block keeps the trace well formed; it closes stdin exactly
once on success (encoder exited 0), and on an error it either has not
closed stdin at all (the error preceded the final `end()`) or has closed it
once because the encoder exited non-zero. -/
theorem tryCapture_inv (env : RecEnv) (fuel : Nat) (s s' : RecState) (r : Option String)
    (h : tryCapture env fuel s = some (s', r)) (hinv : TraceInv s) :
    TraceInv s' ∧
    ((r = none ∧ endCount s'.events = endCount s.events + 1 ∧ env.encoderExitCode = 0) ∨
     (∃ e, r = some e ∧ (endCount s'.events = endCount s.events ∨
        (endCount s'.events = endCount s.events + 1 ∧ ¬ env.encoderExitCode = 0)))) := by
  rw [tryCapture] at h
  cases hcf : captureFrame env s with
  | mk sa ra =>
    rw [hcf] at h
    cases ra with
    | error e =>
      obtain ⟨rfl, hr⟩ : sa = s' ∧ some e = r := Prod.mk.injEq .. ▸ (Option.some_inj.1 h)
      obtain rfl := captureFrame_err_state env s sa e hcf
      exact ⟨hinv, Or.inr ⟨e, hr.symm, Or.inl rfl⟩⟩
    | ok f =>
      dsimp only at h
      obtain ⟨hinv4, hend4⟩ := inlineCaptureWrite_inv env s sa f hcf hinv
      cases hml : mainLoop env fuel (catchUpFrames env
          { writeFrame sa f with writtenFrames := (writeFrame sa f).writtenFrames + 1 } f) with
      | none => rw [hml] at h; simp at h
      | some pr =>
        obtain ⟨s5, r5⟩ := pr
        rw [hml] at h
        obtain ⟨hinv5, hend5⟩ := mainLoop_inv env fuel _ s5 r5 hml hinv4
        cases r5 with
        | some e =>
          obtain ⟨rfl, hr⟩ : s5 = s' ∧ some e = r := Prod.mk.injEq .. ▸ (Option.some_inj.1 h)
          exact ⟨hinv5, Or.inr ⟨e, hr.symm, Or.inl (hend5.trans hend4)⟩⟩
        | none =>
          dsimp only at h
          cases hcf2 : captureFrame env s5 with
          | mk s6 ra2 =>
            rw [hcf2] at h
            cases ra2 with
            | error e =>
              obtain ⟨rfl, hr⟩ : s6 = s' ∧ some e = r := Prod.mk.injEq .. ▸ (Option.some_inj.1 h)
              obtain rfl := captureFrame_err_state env s5 s6 e hcf2
              exact ⟨hinv5, Or.inr ⟨e, hr.symm, Or.inl (hend5.trans hend4)⟩⟩
            | ok f2 =>
              dsimp only at h
              obtain ⟨hinv9, hend9⟩ := inlineCaptureWrite_inv env s5 s6 f2 hcf2 hinv5
              obtain ⟨hinv10, hend10⟩ := emitEnd_inv _ hinv9
              have hendAll : endCount (emitEv (catchUpFrames env
                  { writeFrame s6 f2 with
                    writtenFrames := (writeFrame s6 f2).writtenFrames + 1 } f2)
                  .endStdin).events = endCount s.events + 1 := by
                rw [hend10, hend9, hend5, hend4]
              split at h
              · obtain ⟨rfl, hr⟩ : _ ∧ (none : Option String) = r :=
                  Prod.mk.injEq .. ▸ (Option.some_inj.1 h)
                exact ⟨hinv10, Or.inl ⟨hr.symm, hendAll, by assumption⟩⟩
              · obtain ⟨rfl, hr⟩ : _ ∧ some (ffmpegErrorMessage env) = r :=
                  Prod.mk.injEq .. ▸ (Option.some_inj.1 h)
                exact ⟨hinv10, Or.inr ⟨ffmpegErrorMessage env, hr.symm,
                  Or.inr ⟨hendAll, by assumption⟩⟩⟩

/-- C3 (amended): in every completed capture run the frames are written to
the encoder's stdin in capture order (nondecreasing, only captured ids);
when the pre-try setup fails stdin is never closed, and otherwise stdin is
closed once or twice - exactly once whenever the job succeeds, and twice
only on an error path where the encoder itself exited non-zero, the
`catch` block then calling `end()` a second time. -/
theorem genPageMp4Run_capture_order_end (env : RecEnv) (fuel : Nat) (t0 : ℚ)
    (s' : RecState) (r : Option String)
    (h : genPageMp4Run env fuel (initRecState t0) = some (s', r)) :
    goodTrace s'.events = true ∧
    List.Chain' (· ≤ ·) (writeIds s'.events) ∧
    (env.preTryFails = true → endCount s'.events = 0 ∧ r.isSome = true) ∧
    (env.preTryFails = false →
      (1 ≤ endCount s'.events ∧ endCount s'.events ≤ 2) ∧
      (r = none → endCount s'.events = 1) ∧
      (endCount s'.events = 2 → r.isSome = true ∧ ¬ env.encoderExitCode = 0)) := by
  have hinv0 : TraceInv (initRecState t0) :=
    ⟨0, rfl, le_refl 0, Or.inr ⟨rfl, rfl⟩⟩
  have hend0 : endCount (initRecState t0).events = 0 := rfl
  rw [genPageMp4Run] at h
  split at h
  · obtain ⟨rfl, hr⟩ : initRecState t0 = s' ∧ _ = r :=
      Prod.mk.injEq .. ▸ (Option.some_inj.1 h)
    refine ⟨rfl, by simp [writeIds, initRecState], ?_, ?_⟩
    · intro _
      exact ⟨rfl, by rw [← hr]; rfl⟩
    · intro hpre
      rename_i hcond
      rw [hpre] at hcond
      exact absurd hcond (by simp)
  · rename_i hcond
    have hpre : env.preTryFails = false := by
      cases hx : env.preTryFails with
      | true => exact absurd hx hcond
      | false => rfl
    cases htc : tryCapture env fuel (initRecState t0) with
    | none => rw [htc] at h; simp at h
    | some pr =>
      obtain ⟨s1, r1⟩ := pr
      rw [htc] at h
      obtain ⟨hinv1, hdisj⟩ := tryCapture_inv env fuel (initRecState t0) s1 r1 htc hinv0
      cases r1 with
      | none =>
        obtain ⟨rfl, hr⟩ : s1 = s' ∧ (none : Option String) = r :=
          Prod.mk.injEq .. ▸ (Option.some_inj.1 h)
        rcases hdisj with ⟨-, hcnt, -⟩ | ⟨e, he, -⟩
        · obtain ⟨w, hscan, -, -⟩ := hinv1
          refine ⟨by rw [goodTrace, hscan]; rfl,
            (scanTrace_chain _ 0 0 _ hscan).1, ?_, ?_⟩
          · intro hx; rw [hx] at hpre; exact absurd hpre (by simp)
          · intro _
            rw [hcnt, hend0]
            exact ⟨⟨le_refl 1, by omega⟩, fun _ => rfl, fun h2 => absurd h2 (by omega)⟩
        · exact absurd he.symm (by simp)
      | some e =>
        obtain ⟨rfl, hr⟩ : emitEv s1 .endStdin = s' ∧ some e = r :=
          Prod.mk.injEq .. ▸ (Option.some_inj.1 h)
        rcases hdisj with ⟨hnone, -, -⟩ | ⟨e', he', hcnt⟩
        · exact absurd hnone (by simp)
        · obtain ⟨hinv2, hend2⟩ := emitEnd_inv s1 hinv1
          obtain ⟨w, hscan, -, -⟩ := hinv2
          refine ⟨by rw [goodTrace, hscan]; rfl,
            (scanTrace_chain _ 0 0 _ hscan).1, ?_, ?_⟩
          · intro hx; rw [hx] at hpre; exact absurd hpre (by simp)
          · intro _
            rcases hcnt with h1 | ⟨h1, hexit⟩
            · rw [hend2, h1, hend0]
              exact ⟨⟨le_refl 1, by omega⟩, fun hc => absurd (hr ▸ hc) (by simp),
                fun h2 => absurd h2 (by omega)⟩
            · rw [hend2, h1, hend0]
              refine ⟨⟨by omega, le_refl 2⟩, fun hc => absurd (hr ▸ hc) (by simp),
                fun _ => ⟨by rw [← hr]; rfl, hexit⟩⟩

/-- C3 counterexample: with an encoder exiting 1, the completed run closed
stdin twice, not exactly once as claimed. -/
theorem genPageMp4Run_double_end :
    (genPageMp4Run encoderFailEnv 5 (initRecState 0)).map
      (fun p => (endCount p.1.events, p.2.isSome)) = some (2, true) ∧ (2 : Nat) ≠ 1 := by
  refine ⟨?_, by omega⟩
  simp +decide [genPageMp4Run, tryCapture, mainLoop, waitForStepSettledOp, getBudgetOp,
    getStepInfoOp, nextStepOp, captureForDuration, cfdLoop, captureAndWriteFrame,
    captureFrame, catchUpFrames, catchUpLoop, writeFrame, emitEv, initRecState,
    encoderFailEnv, ffmpegErrorMessage, RecEnv.frameInterval, endCount]

/-- Witness for C3 (amended): the clean one-slide run completes without
error, its trace is in capture order and stdin was closed exactly once. -/
theorem genPageMp4Run_clean_single_end :
    cleanRunEnv.preTryFails = false ∧
    ∃ s', genPageMp4Run cleanRunEnv 5 (initRecState 0) = some (s', none) ∧
      goodTrace s'.events = true ∧ endCount s'.events = 1 := by
  have hrun : (genPageMp4Run cleanRunEnv 5 (initRecState 0)).map (fun p => p.2) =
      some none := by
    simp +decide [genPageMp4Run, tryCapture, mainLoop, waitForStepSettledOp, getBudgetOp,
      getStepInfoOp, nextStepOp, captureForDuration, cfdLoop, captureAndWriteFrame,
      captureFrame, catchUpFrames, catchUpLoop, writeFrame, emitEv, initRecState,
      cleanRunEnv, encoderFailEnv, RecEnv.frameInterval]
  obtain ⟨⟨s', r⟩, heq, hr⟩ :
      ∃ p, genPageMp4Run cleanRunEnv 5 (initRecState 0) = some p ∧ p.2 = none := by
    rcases hx : genPageMp4Run cleanRunEnv 5 (initRecState 0) with _ | p
    · rw [hx] at hrun
      exact absurd hrun (by simp)
    · exact ⟨p, rfl, by rw [hx] at hrun; simpa using hrun⟩
  dsimp only at hr
  subst hr
  obtain ⟨hgood, -, -, himp⟩ :=
    genPageMp4Run_capture_order_end cleanRunEnv 5 0 s' none heq
  exact ⟨rfl, s', heq, hgood, (himp rfl).2.1 rfl⟩

/-- An entry of `Map.set`'s result is the new record or an old entry. -/
theorem setJob_mem (m : JobMap) (id : String) (job : VideoExportJob)
    (p : String × VideoExportJob) (hp : p ∈ setJob m id job) :
    p.2 = job ∨ p ∈ m := by
  rw [setJob] at hp
  split at hp
  · obtain ⟨q, hq, hpq⟩ := List.mem_map.1 hp
    by_cases hqid : q.1 = id
    · rw [if_pos hqid] at hpq
      exact Or.inl (by rw [← hpq])
    · rw [if_neg hqid] at hpq
      exact Or.inr (hpq ▸ hq)
  · rcases List.mem_append.1 hp with h1 | h1
    · exact Or.inr h1
    · exact Or.inl (by rcases List.mem_singleton.1 h1 with rfl; rfl)

/-- A resolved path of the form `dir/file` is never empty. -/
theorem append_slash_ne_empty (a b : String) : a ++ "/" ++ b ≠ "" := by
  intro h
  have := congrArg String.length h
  simp [String.length_append] at this
  exact absurd this.1.2 (by decide)

/-- Service invariant: every job the registry can reach through its own
operations carries a truthy `file`. -/
theorem reachable_truthy (m : JobMap) (hm : ReachableJobs m) :
    ∀ p ∈ m, truthyFile p.2.file = true := by
  induction hm with
  | init => intro p hp; simp at hp
  | post m body port newId now date exportFilename entryBasename userRoot entry h ih =>
    intro p hp
    rw [handlePost.eq_def] at hp
    rcases body with e | payload
    · exact ih p hp
    · rcases port with _ | prt
      · exact ih p hp
      · dsimp only at hp
        rcases setJob_mem _ _ _ p hp with h1 | h1
        · rw [h1, truthyFile]
          simp [append_slash_ne_empty]
        · exact ih p h1
  | background m pending res t hout h ih =>
    intro p hp
    rw [runBackgroundJob.eq_def] at hp
    rcases res with u | e <;>
    · rcases setJob_mem _ _ _ p hp with h1 | h1
      · rw [h1, truthyFile]
        simpa using hout
      · exact ih p h1
  | sweep m now h ih =>
    intro p hp
    exact ih p (List.mem_of_mem_filter hp)

/-- C7: For every descriptor the service returns on a reachable registry,
`downloadUrl` is set exactly when the job's status is `done` and its file is
set; the download endpoint answers 404 exactly when the job is missing, not
`done`, or has a falsy file, and otherwise streams the file as a
`video/mp4` attachment named after the file's basename. -/
theorem jobService_download_spec (m : JobMap) (hm : ReachableJobs m)
    (jobId : String) (hid : jobId ≠ "") (now : ℤ) :
    (∀ job, lookupJob m jobId = some job →
      ((resolveJobResponse job (some jobId) now).downloadUrl ≠ none ↔
        (job.status = JobStatus.done ∧ truthyFile job.file = true))) ∧
    (handleDownload m jobId = .notFound "Export file not ready" ↔
      (lookupJob m jobId = none ∨
       ∃ job, lookupJob m jobId = some job ∧
        (job.status ≠ JobStatus.done ∨ truthyFile job.file = false))) ∧
    (∀ job f, lookupJob m jobId = some job → job.file = some f →
      job.status = JobStatus.done →
      handleDownload m jobId =
        .stream f "video/mp4" ("attachment; filename=\"" ++ basenameOf f ++ "\"")) := by
  have htruthy : ∀ job, lookupJob m jobId = some job → truthyFile job.file = true := by
    intro job hjob
    rw [lookupJob] at hjob
    cases hf : m.find? fun p => p.1 = jobId with
    | none => rw [hf] at hjob; simp at hjob
    | some q =>
      rw [hf] at hjob
      obtain rfl : q.2 = job := Option.some_inj.1 hjob
      exact reachable_truthy m hm q (List.mem_of_find?_eq_some hf)
  refine ⟨?_, ?_, ?_⟩
  · intro job hjob
    rw [resolveJobResponse]
    dsimp only
    constructor
    · intro hne
      split at hne
      · rename_i hcond
        exact ⟨hcond.2, htruthy job hjob⟩
      · exact absurd rfl hne
    · rintro ⟨hdone, -⟩
      rw [if_pos ⟨hid, hdone⟩]
      simp
  · rw [handleDownload]
    cases hl : lookupJob m jobId with
    | none => simp
    | some job =>
      dsimp only
      have ht := htruthy job hl
      cases hfile : job.file with
      | none => rw [hfile, truthyFile] at ht; simp at ht
      | some f =>
        dsimp only
        have hfne : f ≠ "" := by
          rw [hfile, truthyFile] at ht
          simpa using ht
        by_cases hdone : job.status = JobStatus.done
        · rw [if_pos ⟨hdone, hfne⟩]
          constructor
          · intro hx; exact absurd hx (by simp)
          · rintro (hx | ⟨job2, hj2, hx⟩)
            · exact absurd hx (by simp)
            · obtain rfl : job = job2 := Option.some_inj.1 hj2
              rcases hx with hx | hx
              · exact absurd hdone hx
              · rw [hx] at ht
                exact absurd ht (by simp)
        · rw [if_neg (by intro hc; exact hdone hc.1)]
          constructor
          · intro _; exact Or.inr ⟨job, rfl, Or.inl hdone⟩
          · intro _; rfl
  · intro job f hjob hf hdone
    rw [handleDownload, hjob]
    dsimp only
    rw [hf]
    dsimp only
    have hfne : f ≠ "" := by
      have := htruthy job hjob
      rw [hf, truthyFile] at this
      simpa using this
    rw [if_pos ⟨hdone, hfne⟩]

/-- Witness for C7: one freshly posted job is still `running`, so its
download endpoint answers 404. -/
theorem jobService_download_spec_witness :
    handleDownload (handlePost (.ok goodPayload) (some 3030) "job1" 0 sampleDate
      none "slides" "/root" "slides.md" []).2.1 "job1" =
      .notFound "Export file not ready" := by
  have hm : ReachableJobs (handlePost (.ok goodPayload) (some 3030) "job1" 0 sampleDate
      none "slides" "/root" "slides.md" []).2.1 :=
    ReachableJobs.post [] _ _ _ _ _ _ _ _ _ ReachableJobs.init
  obtain ⟨-, hb, -⟩ := jobService_download_spec _ hm "job1" (by decide) 0
  refine hb.2 (Or.inr ⟨{ status := .running, file := some ("/root" ++ "/" ++ buildOutputFilename goodPayload "job1" (getDefaultOutputBase none "slides") (formatTimestamp sampleDate)), error := none, startedAt := 0, completedAt := none, durationMs := none }, ?_, Or.inl (by simp)⟩)
  simp [handlePost, setJob, lookupJob]

/-- Overwriting an existing key makes lookup find the new record. -/
theorem find?_map_replace (id : String) (job : VideoExportJob) :
    ∀ (m : JobMap), m.any (fun p => p.1 = id) = true →
      ((m.map fun p => if p.1 = id then (id, job) else p).find? fun p => p.1 = id)
        = some (id, job)
  | [] => by intro h; simp at h
  | q :: rest => by
    intro h
    by_cases hq : q.1 = id
    · simp only [List.map_cons, if_pos hq]
      rw [List.find?_cons_of_pos _ (by simp)]
    · simp only [List.map_cons, if_neg hq]
      rw [List.find?_cons_of_neg _ (by simp [hq])]
      refine find?_map_replace id job rest ?_
      simp only [List.any_cons] at h
      rcases Bool.or_eq_true_iff.1 h with h1 | h1
      · exact absurd (by simpa using h1) hq
      · exact h1

/-- Lookup misses a key no entry carries. -/
theorem find?_none_of_any_false (id : String) :
    ∀ (m : JobMap), m.any (fun p => p.1 = id) = false →
      (m.find? fun p => p.1 = id) = none
  | [] => by intro _; rfl
  | q :: rest => by
    intro h
    simp only [List.any_cons, Bool.or_eq_false_iff] at h
    rw [List.find?_cons_of_neg _ (by simp [h.1]), find?_none_of_any_false id rest h.2]
  
/-- `Map.get` after `Map.set` returns the record just stored. -/
theorem lookupJob_setJob (m : JobMap) (id : String) (job : VideoExportJob) :
    lookupJob (setJob m id job) id = some job := by
  rw [lookupJob, setJob]
  split
  · rw [find?_map_replace id job m (by assumption)]
    rfl
  · rename_i hany
    rw [List.find?_append, find?_none_of_any_false id m (by
      cases hx : m.any fun p => p.1 = id
      · rfl
      · exact absurd hx hany)]
    rw [Option.none_or, List.find?_cons_of_pos _ (by simp)]
    rfl

/-- C1 (amended): `POST /export/video` answers 400 (registry untouched, no
background task) only for an unparsable body or an unresolvable server
port; every parsed request with a port - including one whose options are
invalid - is immediately registered as `running` and answered 200 with the
job id, and when the deferred pipeline then fails (e.g. on `videoSize`
validation) that same job transitions to status `error`. -/
theorem post_video_validation_deferred
    (payload : PostPayload) (prt : Nat) (newId : String) (now : ℤ) (date : DateParts)
    (exportFilename : Option String) (entryBasename userRoot entry : String)
    (m : JobMap) (e : String) (t : ℤ) :
    (∀ berr, handlePost (.error berr) (some prt) newId now date exportFilename
        entryBasename userRoot entry m = (.badRequest berr, m, none)) ∧
    (handlePost (.ok payload) none newId now date exportFilename entryBasename userRoot entry m
      = (.badRequest "Unable to resolve dev server port for exporting", m, none)) ∧
    (∃ pending : PendingJob,
      handlePost (.ok payload) (some prt) newId now date exportFilename entryBasename
          userRoot entry m
        = (.ok newId, setJob m newId { status := .running, file := some pending.output, error := none, startedAt := now, completedAt := none, durationMs := none }, some pending) ∧
      pending.id = newId ∧ pending.startedAt = now ∧
      lookupJob (handlePost (.ok payload) (some prt) newId now date exportFilename
          entryBasename userRoot entry m).2.1 newId
        = some { status := .running, file := some pending.output, error := none, startedAt := now, completedAt := none, durationMs := none } ∧
      lookupJob (runBackgroundJob pending (.error e) t (handlePost (.ok payload) (some prt)
          newId now date exportFilename entryBasename userRoot entry m).2.1) newId
        = some { status := .error, error := some e, file := some pending.output, startedAt := now, completedAt := some t, durationMs := some (max 0 (t - now)) }) := by
  refine ⟨fun berr => rfl, rfl, ?_⟩
  rw [handlePost.eq_def]
  dsimp only
  refine ⟨{ id := newId, output := userRoot ++ "/" ++ buildOutputFilename payload newId (getDefaultOutputBase exportFilename entryBasename) (formatTimestamp date), startedAt := now, args := { entry := entry, format := "mp4", output := userRoot ++ "/" ++ buildOutputFilename payload newId (getDefaultOutputBase exportFilename entryBasename) (formatTimestamp date), range := match payload.range with | some r => if r.trim ≠ "" then some r.trim else none | none => none, videoInterval := payload.videoInterval, videoFps := payload.videoFps, videoSize := payload.videoSize, dark := payload.dark } }, rfl, rfl, rfl, ?_, ?_⟩
  · exact lookupJob_setJob m newId _
  · rw [runBackgroundJob]
    dsimp only
    exact lookupJob_setJob _ newId _

/-- C1 counterexample: a request whose `videoSize` is the invalid string
`bogus` is answered `200 {jobId}`, recorded as `running`, and the
background pipeline's `parseVideoSize` failure then flips that same job to
status `error` - the claim said such a request never becomes a `running`
job that later transitions to `error`. -/
theorem post_badSize_running_then_error :
    (handlePost (.ok badSizePayload) (some 3030) "job1" 0 sampleDate none "slides" "/root"
      "slides.md" []).1 = .ok "job1" ∧
    (lookupJob (handlePost (.ok badSizePayload) (some 3030) "job1" 0 sampleDate none "slides"
      "/root" "slides.md" []).2.1 "job1").map VideoExportJob.status = some .running ∧
    ∃ pending msg,
      (handlePost (.ok badSizePayload) (some 3030) "job1" 0 sampleDate none "slides" "/root"
        "slides.md" []).2.2 = some pending ∧
      exportVideoJob pending.args okPipelineEnv = .error msg ∧
      (lookupJob (runBackgroundJob pending (exportVideoJob pending.args okPipelineEnv) 7
        (handlePost (.ok badSizePayload) (some 3030) "job1" 0 sampleDate none "slides" "/root"
          "slides.md" []).2.1) "job1").map VideoExportJob.status = some .error := by
  refine ⟨rfl, ?_, ?_⟩
  · rw [handlePost.eq_def]
    dsimp only
    rw [lookupJob_setJob]
    rfl
  · rw [handlePost.eq_def]
    dsimp only
    have herr : exportVideoJob { entry := "slides.md", format := "mp4", output := "/root" ++ "/" ++ buildOutputFilename badSizePayload "job1" (getDefaultOutputBase none "slides") (formatTimestamp sampleDate), range := match badSizePayload.range with | some r => if r.trim ≠ "" then some r.trim else none | none => none, videoInterval := badSizePayload.videoInterval, videoFps := badSizePayload.videoFps, videoSize := badSizePayload.videoSize, dark := badSizePayload.dark } okPipelineEnv = .error ("[slidev] Invalid --video-size \"bogus\". Expected \"<width>x<height>\", for example \"1920x1080\"") := by
      rw [exportVideoJob.eq_def]
      dsimp only [badSizePayload]
      rfl
    refine ⟨_, "[slidev] Invalid --video-size \"bogus\". Expected \"<width>x<height>\", for example \"1920x1080\"", rfl, ?_, ?_⟩
    · exact herr
    · rw [herr, runBackgroundJob]
      dsimp only
      rw [lookupJob_setJob]
      rfl
